import Mathlib

/-!
# Verification of the `weekend-tracer-rs` path tracer core

A shallow embedding of the core of the `weekend-tracer-rs` Monte Carlo path
tracer, together with theorems settling the frozen specification claims.

Modelling conventions:
* `f32` scalars are embedded as `ℚ`.  Division by zero follows Lean's
  convention `q / 0 = 0`; the transcendental primitives of `f32`
  (`sqrt`, `exp`, `powf`, `atan2`, `asin`, `π`, `INFINITY`) have no rational
  counterpart and are threaded through a `Prim` structure of abstract
  function parameters.
* `&mut rng` randomness is embedded as explicit state passing of a stream
  `List ℚ` of pre-drawn `f32` samples; the unbounded rejection-sampling
  loops (`random_in_unit_sphere`, …) and the camera are abstracted as
  stream-consuming function parameters in `Prim`.
* potentially-NaN pixel post-processing (`renderer.rs` lines 145-161) is
  embedded over a scalar type `QF` = `ℚ` plus a NaN point, mirroring the
  `is_nan` checks, the comparison semantics of NaN and the saturating
  `as u32` cast.
* trait objects (`Box<dyn Hittable>`) are embedded as a structure `Obj` of
  their interface functions: a per-ray ordered candidate-hit list (so that
  `hit` is "first candidate inside the open interval `(t_min, t_max)`"),
  a `bounding_box` function, and the `pdf_value`/`random` functions.
* `panic!` is embedded as `Option.none` of an `Option`-returning function.
-/

namespace Tracer

/-- 3D vector of rationals, embedding `vec3.rs`'s `Vec3(pub f32, pub f32, pub f32)`. -/
structure Vec3 where
  x : ℚ
  y : ℚ
  z : ℚ
deriving DecidableEq, Repr

namespace Vec3

/-- Componentwise addition (`impl Add for Vec3`). -/
def add (a b : Vec3) : Vec3 := ⟨a.x + b.x, a.y + b.y, a.z + b.z⟩

/-- Componentwise subtraction (`impl Sub for Vec3`). -/
def sub (a b : Vec3) : Vec3 := ⟨a.x - b.x, a.y - b.y, a.z - b.z⟩

/-- Negation (`impl Neg for Vec3`). -/
def neg (a : Vec3) : Vec3 := ⟨-a.x, -a.y, -a.z⟩

/-- Scalar multiplication (`impl Mul<Vec3> for f32` / `impl Mul<f32> for Vec3`). -/
def smul (k : ℚ) (a : Vec3) : Vec3 := ⟨k * a.x, k * a.y, k * a.z⟩

/-- Componentwise (Hadamard) multiplication (`impl Mul for Vec3`). -/
def mulv (a b : Vec3) : Vec3 := ⟨a.x * b.x, a.y * b.y, a.z * b.z⟩

/-- Division by a scalar: the source computes `(1.0 / rhs) * self`. -/
def divs (a : Vec3) (k : ℚ) : Vec3 := smul (1 / k) a

/-- `Vec3::dot`. -/
def dot (a b : Vec3) : ℚ := a.x * b.x + a.y * b.y + a.z * b.z

/-- `Vec3::length_squared`. -/
def lengthSquared (a : Vec3) : ℚ := a.x * a.x + a.y * a.y + a.z * a.z

/-- `Vec3::cross`. -/
def cross (a b : Vec3) : Vec3 :=
  ⟨a.y * b.z - a.z * b.y, -(a.x * b.z - a.z * b.x), a.x * b.y - a.y * b.x⟩

/-- `Vec3::reflect`: `*self - 2.0 * self.dot(normal) * normal`. -/
def reflect (v n : Vec3) : Vec3 := sub v (smul (2 * dot v n) n)

/-- The zero vector (`vec3!()`). -/
def zero : Vec3 := ⟨0, 0, 0⟩

instance : Add Vec3 := ⟨add⟩
instance : Sub Vec3 := ⟨sub⟩
instance : Neg Vec3 := ⟨neg⟩

end Vec3

/-- A ray (`ray.rs` plus the `time` field used throughout `renderer.rs`,
`bvh.rs`, `sphere.rs` and `moving_sphere.rs`). -/
structure Ray where
  origin : Vec3
  direction : Vec3
  time : ℚ
deriving DecidableEq, Repr

/-- `Ray::at`: `self.origin + t * self.direction`. -/
def Ray.at (r : Ray) (t : ℚ) : Vec3 := r.origin + Vec3.smul t r.direction

/-- Axis-aligned bounding box (`aabb.rs`). -/
structure AABB where
  min : Vec3
  max : Vec3
deriving DecidableEq, Repr

namespace AABB

/-- `AABB::surrounding_box`: componentwise min of mins and max of maxes. -/
def surroundingBox (box0 box1 : AABB) : AABB :=
  { min := ⟨Min.min box0.min.x box1.min.x, Min.min box0.min.y box1.min.y,
            Min.min box0.min.z box1.min.z⟩
    max := ⟨Max.max box0.max.x box1.max.x, Max.max box0.max.y box1.max.y,
            Max.max box0.max.z box1.max.z⟩ }

/-- One axis of the slab test inside `AABB::hit`: given the axis components
of the box bounds, ray origin and ray direction, narrow the running
`(tmin, tmax)` interval, returning `none` at the `tmax <= tmin` early exit. -/
def slabAxis (bmin bmax o d : ℚ) (acc : ℚ × ℚ) : Option (ℚ × ℚ) :=
  let invD := 1 / d
  let t0 := (bmin - o) * invD
  let t1 := (bmax - o) * invD
  let t0' := if invD < 0 then t1 else t0
  let t1' := if invD < 0 then t0 else t1
  let tmin := if t0' > acc.1 then t0' else acc.1
  let tmax := if t1' < acc.2 then t1' else acc.2
  if tmax ≤ tmin then none else some (tmin, tmax)

/-- `AABB::hit`: the slab method over the three axes with early exit. -/
def hit (b : AABB) (r : Ray) (tmin tmax : ℚ) : Bool :=
  match slabAxis b.min.x b.max.x r.origin.x r.direction.x (tmin, tmax) with
  | none => false
  | some acc1 =>
    match slabAxis b.min.y b.max.y r.origin.y r.direction.y acc1 with
    | none => false
    | some acc2 =>
      match slabAxis b.min.z b.max.z r.origin.z r.direction.z acc2 with
      | none => false
      | some _ => true

/-- `AABB::axis_range`: `max(min[a],max[a]) - min(min[a],max[a])`. -/
def axisRange (b : AABB) (axis : ℕ) : ℚ :=
  let mn := match axis with | 0 => b.min.x | 1 => b.min.y | _ => b.min.z
  let mx := match axis with | 0 => b.max.x | 1 => b.max.y | _ => b.max.z
  Max.max mn mx - Min.min mn mx

/-- `AABB::longest_axis`: index of the axis of greatest range.  The source
sorts the three `(index, range)` pairs descending with a small stable sort,
so ties resolve to the smallest index. -/
def longestAxis (b : AABB) : ℕ :=
  let r0 := b.axisRange 0
  let r1 := b.axisRange 1
  let r2 := b.axisRange 2
  if r0 ≥ r1 ∧ r0 ≥ r2 then 0 else if r1 ≥ r2 then 1 else 2

/-- `AABB::area`: `2(xy + xz + yz)` of the axis ranges. -/
def area (b : AABB) : ℚ :=
  let x := b.axisRange 0
  let y := b.axisRange 1
  let z := b.axisRange 2
  2 * (x * y + x * z + y * z)

end AABB

/-- `HitRecord` (`hittable/mod.rs`), parametric in the type `μ` of the shared
material reference (`Arc<Material>`): the BVH development uses `μ = ℕ`
(reference identities), the renderer uses `μ = Material`. -/
structure HitRecord (μ : Type) where
  hitPoint : Vec3
  normal : Vec3
  t : ℚ
  frontFace : Bool
  material : μ
  uv : ℚ × ℚ
deriving DecidableEq, Repr

/-- `HitRecord::new`: orient `normal` against the incident ray and record
`front_face = ray.direction.dot(outward_normal) < 0.0`. -/
def HitRecord.make {μ : Type} (ray : Ray) (t : ℚ) (hitPoint outwardNormal : Vec3)
    (material : μ) (uv : ℚ × ℚ) : HitRecord μ :=
  let frontFace : Bool := ray.direction.dot outwardNormal < 0
  { hitPoint := hitPoint
    t := t
    normal := if frontFace then outwardNormal else -outwardNormal
    frontFace := frontFace
    material := material
    uv := uv }

/-- A `Box<dyn Hittable>` trait object, embedded as its interface functions.
`cands r` is the ordered list of candidate intersections of the object along
ray `r`; `hit` (below) filters it by the open query interval, which is the
semantics shared by every geometric `Hittable` of the repository.  `bbox`
embeds `bounding_box` for an object that always reports a box; `pdfValue`
and `random` embed the light-sampling interface. -/
structure Obj (μ : Type) where
  cands : Ray → List (HitRecord μ)
  bbox : ℚ → ℚ → AABB
  pdfValue : Vec3 → Vec3 → ℚ
  random : Vec3 → Vec3

/-- `Hittable::hit` of an `Obj`: the first candidate strictly inside
`(t_min, t_max)` (the trait doc: hits count only if `t_min < t < t_max`). -/
def Obj.hit {μ : Type} (o : Obj μ) (r : Ray) (tmin tmax : ℚ) : Option (HitRecord μ) :=
  (o.cands r).find? (fun rec => decide (tmin < rec.t) && decide (rec.t < tmax))

/-- One step of `World::hit`'s scan: query the object with `closest_so_far`
(the accumulated hit's `t`, or the original `t_max`), and keep the new hit
if there is one. -/
def worldF {μ : Type} (r : Ray) (tmin tmax : ℚ) (acc : Option (HitRecord μ)) (o : Obj μ) :
    Option (HitRecord μ) :=
  match o.hit r tmin (match acc with | some rec => rec.t | none => tmax) with
  | some rec => some rec
  | none => acc

/-- `impl Hittable for World`: `hit` scans the object list, narrowing
`closest_so_far` from `t_max` to the `t` of each hit found (`world.rs`
lines 118-132). -/
def worldHit {μ : Type} (objs : List (Obj μ)) (r : Ray) (tmin tmax : ℚ) :
    Option (HitRecord μ) :=
  objs.foldl (worldF r tmin tmax) none

/-- `impl Hittable for World` contains no `pdf_value` override (`world.rs`
lines 117-163), so a `World` answers with the trait default from
`hittable/mod.rs` lines 128-130: `0.0`. -/
def worldPdfValue {μ : Type} (_objs : List (Obj μ)) (_origin _v : Vec3) : ℚ := 0

/-- `impl Hittable for World` contains no `random` override either, so a
`World` answers with the trait default from `hittable/mod.rs` lines 133-135:
`Vec3::new(1.0, 0.0, 0.0)`. -/
def worldRandom {μ : Type} (_objs : List (Obj μ)) (_origin : Vec3) : Vec3 := ⟨1, 0, 0⟩

/-- Modelled from the spec: "`pdf_value`/`random` for lights distribute
uniformly across members" — the spec's version of `World::pdf_value` returns
the average of the members' `pdf_value` results.  (This definition follows
the spec's words, not the source; it exists to be compared with
`worldPdfValue`, the definition translated from the source.) -/
def specWorldPdfValue {μ : Type} (objs : List (Obj μ)) (origin v : Vec3) : ℚ :=
  (objs.map (fun o => o.pdfValue origin v)).sum / objs.length

/-- The BVH tree (`bvh.rs`): a `BVH { bbox, size, contents }` whose contents
are either an internal node with two children or a leaf holding one object. -/
inductive BVH (μ : Type) where
  | node (bbox : AABB) (size : ℕ) (left right : BVH μ)
  | leaf (bbox : AABB) (size : ℕ) (obj : Obj μ)

/-- The `bbox` field of a `BVH`. -/
def BVH.bbox {μ : Type} : BVH μ → AABB
  | .node b _ _ _ => b
  | .leaf b _ _ => b

/-- The `size` field of a `BVH`. -/
def BVH.size {μ : Type} : BVH μ → ℕ
  | .node _ s _ _ => s
  | .leaf _ s _ => s

/-- The objects held by the leaves, in tree order. -/
def BVH.leafObjs {μ : Type} : BVH μ → List (Obj μ)
  | .node _ _ l r => l.leafObjs ++ r.leafObjs
  | .leaf _ _ o => [o]

/-- `impl Hittable for BVH::hit` (`bvh.rs` lines 135-167): prune on the
node box, recurse left, re-query right with `t_max` tightened to the left
hit's `t`, and return the nearer of the two hits. -/
def BVH.hit {μ : Type} : BVH μ → Ray → ℚ → ℚ → Option (HitRecord μ)
  | .leaf bbox _ o, r, tmin, tmax =>
    if bbox.hit r tmin tmax then o.hit r tmin tmax else none
  | .node bbox _ left right, r, tmin, tmax =>
    if bbox.hit r tmin tmax then
      let hitLeft := left.hit r tmin tmax
      let rightTMax := match hitLeft with | some rec => rec.t | none => tmax
      let hitRight := right.hit r tmin rightTMax
      match hitLeft, hitRight with
      | h, none => h
      | none, h => h
      | some hl, some hr => if hl.t < hr.t then some hl else some hr
    else none

/-- The `1`-object case of `BVH::new` (`bvh.rs` lines 124-128): a leaf whose
box is the object's `bounding_box(time0, time1)`. -/
def mkLeaf {μ : Type} (t0 t1 : ℚ) (o : Obj μ) : BVH μ :=
  BVH.leaf (o.bbox t0 t1) 1 o

/-- A throwaway object used only on the unreachable short-list branches of
the recursion in `bvhInner`. -/
def junkObj (μ : Type) : Obj μ :=
  { cands := fun _ => []
    bbox := fun _ _ => ⟨Vec3.zero, Vec3.zero⟩
    pdfValue := fun _ _ => 0
    random := fun _ => ⟨1, 0, 0⟩ }

/-- `main_box` of `bvh.rs` lines 42-48: start from the first object's box and
fold `surrounding_box(new_box, main_box)` over the rest. -/
def mainBoxOf {μ : Type} (t0 t1 : ℚ) (o : Obj μ) (rest : List (Obj μ)) : AABB :=
  rest.foldl (fun acc ob => AABB.surroundingBox (ob.bbox t0 t1) acc) (o.bbox t0 t1)

/-- The union box of a nonempty object list, in the fold shape of `bvh.rs`
lines 42-48 (junk box on `[]`, which the build never queries: `inner` is
only called on nonempty vectors). -/
def listBox {μ : Type} (t0 t1 : ℚ) : List (Obj μ) → AABB
  | [] => ⟨Vec3.zero, Vec3.zero⟩
  | o :: rest => mainBoxOf t0 t1 o rest

/-- Sort key used by `box_x_compare`/`box_y_compare`/`box_z_compare`
(`bvh.rs` lines 179-210): the chosen-axis component of
`bounding_box(0.0, 0.0).min`. -/
def sortKey {μ : Type} (axis : ℕ) (o : Obj μ) : ℚ :=
  match axis with
  | 0 => (o.bbox 0 0).min.x
  | 1 => (o.bbox 0 0).min.y
  | _ => (o.bbox 0 0).min.z

/-- Cumulative left-to-right box unions (`bvh.rs` lines 66-73):
entry `i` is the union of `boxes[0..=i]`. -/
def prefixUnions : List AABB → List AABB
  | [] => []
  | b :: bs => bs.scanl AABB.surroundingBox b

/-- Cumulative right-to-left box unions (`bvh.rs` lines 75-82):
entry `i` is the union of `boxes[i..]`. -/
def suffixUnions (boxes : List AABB) : List AABB :=
  match boxes.reverse with
  | [] => []
  | b :: bs => (bs.scanl AABB.surroundingBox b).reverse

/-- First index of the strict minimum of a list of SAH costs, mirroring the
`sah < min_sah` update loop of `bvh.rs` lines 85-93 (the first cost always
replaces the `f32::MAX` sentinel). -/
def argminQAux : List ℚ → ℕ → ℕ → ℚ → ℕ
  | [], _, bi, _ => bi
  | v :: vs, i, bi, bv =>
    if v < bv then argminQAux vs (i + 1) i v else argminQAux vs (i + 1) bi bv

/-- First index of the strict minimum of a nonempty list (`0` on `[]`). -/
def argminQ : List ℚ → ℕ
  | [] => 0
  | v :: vs => argminQAux vs 1 0 v

/-- The surface-area-heuristic split index of `bvh.rs` lines 84-93:
`argmin_i (i * left_area[i] + (n-i-1) * right_area[i+1])` over `0 ≤ i ≤ n-2`. -/
def minSahIdx (boxes : List AABB) : ℕ :=
  let n := boxes.length
  let leftAreas := (prefixUnions boxes).map AABB.area
  let rightAreas := (suffixUnions boxes).map AABB.area
  argminQ ((List.range (n - 1)).map
    (fun (i : ℕ) =>
      (i : ℚ) * leftAreas.getD i 0 + ((n - i - 1 : ℕ) : ℚ) * rightAreas.getD (i + 1) 0))

def argminQAux_lt (vs : List ℚ) : ∀ i bi bv, bi < i →
    argminQAux vs i bi bv < i + vs.length := by
  induction vs with
  | nil => intro i bi bv h; simpa [argminQAux] using h.trans_le (Nat.le_refl i)
  | cons v vs ih =>
    intro i bi bv h
    simp only [argminQAux, List.length_cons]
    by_cases hv : v < bv
    · simp only [hv, if_true]
      have := ih (i + 1) i v (Nat.lt_succ_self i)
      omega
    · simp only [hv, if_false]
      have := ih (i + 1) bi bv (by omega)
      omega

def argminQ_lt (l : List ℚ) (h : l ≠ []) : argminQ l < l.length := by
  cases l with
  | nil => exact absurd rfl h
  | cons v vs =>
    simp only [argminQ, List.length_cons]
    have := argminQAux_lt vs 1 0 v (Nat.zero_lt_one)
    omega

/-- The axis `inner` sorts along: `longest_axis` of the whole-list union box
(`bvh.rs` lines 50-52). -/
def bvhAxis {μ : Type} (t0 t1 : ℚ) (objs : List (Obj μ)) : ℕ :=
  match objs with
  | [] => 0
  | o :: rest => (mainBoxOf t0 t1 o rest).longestAxis

/-- The object list after the sort of `bvh.rs` lines 54-59. -/
def bvhSorted {μ : Type} (t0 t1 : ℚ) (objs : List (Obj μ)) : List (Obj μ) :=
  objs.insertionSort
    (fun a b => sortKey (bvhAxis t0 t1 objs) a ≤ sortKey (bvhAxis t0 t1 objs) b)

/-- `min_sah_idx` of `bvh.rs` lines 84-93 at count `n`: the SAH costs are
computed over the boxes of the first `n` objects of the sorted vector
(`boxes[i]` is filled for `i < n` only, `bvh.rs` lines 62-65). -/
def bvhSplitIdx {μ : Type} (t0 t1 : ℚ) (objs : List (Obj μ)) (n : ℕ) : ℕ :=
  minSahIdx (((bvhSorted t0 t1 objs).take n).map (fun o => o.bbox t0 t1))

def bvhSorted_perm {μ : Type} (t0 t1 : ℚ) (objs : List (Obj μ)) :
    (bvhSorted t0 t1 objs).Perm objs :=
  List.perm_insertionSort _ objs

def bvhSorted_length {μ : Type} (t0 t1 : ℚ) (objs : List (Obj μ)) :
    (bvhSorted t0 t1 objs).length = objs.length :=
  (bvhSorted_perm t0 t1 objs).length_eq

def argminQ_le_of_length_le (l : List ℚ) (n : ℕ) (h : l.length ≤ n + 1) : argminQ l ≤ n := by
  cases l with
  | nil => simp [argminQ]
  | cons v vs =>
    have h1 := argminQ_lt (v :: vs) (by simp)
    simp only [List.length_cons] at h h1
    omega

def bvhSplitIdx_le {μ : Type} (t0 t1 : ℚ) (objs : List (Obj μ)) (n : ℕ) :
    bvhSplitIdx t0 t1 objs (n + 2) ≤ n := by
  simp only [bvhSplitIdx, minSahIdx]
  refine argminQ_le_of_length_le _ n ?_
  simp only [List.length_map, List.length_range, List.length_take]
  omega

/-- `inner` of `BVH::new` (`bvh.rs` lines 37-120), recursing on the object
count: `inner(objects, n)` folds `main_box` over the **entire** vector
(lines 42-48), derives the sort axis from it, sorts the entire vector, and
computes the SAH split `k` over the first `n` boxes; the left recursion
passes the whole sorted vector with count `k + 1` (line 98), the right
recursion the whole tail from `k + 1` with count `n - k - 1` (lines
104-109), and the node's box is `main_box`.  The `n < 2` cases are
unreachable (`inner` is only ever called with `2 ≤ n ≤ objects.len()`).
`sort_unstable_by` is modelled as a stable insertion sort; the source
leaves the relative order of equal keys unspecified. -/
def bvhInner {μ : Type} (t0 t1 : ℚ) : ℕ → List (Obj μ) → BVH μ
  | 0, _ => mkLeaf t0 t1 (junkObj μ)
  | 1, objs => mkLeaf t0 t1 (objs.headD (junkObj μ))
  | n + 2, objs =>
    let left :=
      if bvhSplitIdx t0 t1 objs (n + 2) = 0 then
        mkLeaf t0 t1 ((bvhSorted t0 t1 objs).headD (junkObj μ))
      else
        bvhInner t0 t1 (bvhSplitIdx t0 t1 objs (n + 2) + 1) (bvhSorted t0 t1 objs)
    let right :=
      if bvhSplitIdx t0 t1 objs (n + 2) = n then
        mkLeaf t0 t1
          (((bvhSorted t0 t1 objs).drop (bvhSplitIdx t0 t1 objs (n + 2) + 1)).headD (junkObj μ))
      else
        bvhInner t0 t1 (n + 1 - bvhSplitIdx t0 t1 objs (n + 2))
          ((bvhSorted t0 t1 objs).drop (bvhSplitIdx t0 t1 objs (n + 2) + 1))
    BVH.node (listBox t0 t1 objs) (left.size + right.size) left right
termination_by n _ => n
decreasing_by
  · have := bvhSplitIdx_le t0 t1 objs n
    omega
  · omega

/-- `BVH::new` (`bvh.rs` lines 36-131): the zero-object `panic!` is embedded
as `none`; one object gives the leaf; otherwise `inner(objects, n)` with
`n = objects.len()`. -/
def bvhBuild {μ : Type} (objs : List (Obj μ)) (t0 t1 : ℚ) : Option (BVH μ) :=
  match objs with
  | [] => none
  | [o] => some (mkLeaf t0 t1 o)
  | o1 :: o2 :: rest => some (bvhInner t0 t1 (o1 :: o2 :: rest).length (o1 :: o2 :: rest))

/-- The abstract `f32` primitives with no rational counterpart (`sqrt`, `exp`,
`π`, `INFINITY`, `get_sphere_uv`'s inverse trigonometry), the
rejection-sampling random generators of `vec3.rs` and `cosine_pdf.rs`, and
the external `Camera::get_ray`, all threaded as parameters. -/
structure Prim where
  sqrtQ : ℚ → ℚ
  expQ : ℚ → ℚ
  piQ : ℚ
  infQ : ℚ
  sphereUV : Vec3 → ℚ × ℚ
  randCosineDir : List ℚ → Vec3 × List ℚ
  randInUnitSphere : List ℚ → Vec3 × List ℚ
  getRay : List ℚ → ℚ → ℚ → Ray × List ℚ

/-- `rng.gen::<f32>()`: pop the next pre-drawn sample off the stream. -/
def drawQ : List ℚ → ℚ × List ℚ
  | [] => (0, [])
  | q :: qs => (q, qs)

/-- `Vec3::length`: `sqrt` of `length_squared`. -/
def Vec3.length (pr : Prim) (v : Vec3) : ℚ := pr.sqrtQ v.lengthSquared

/-- `Vec3::unit_vector`: componentwise multiplication by `1.0 / length`. -/
def unitVector (pr : Prim) (v : Vec3) : Vec3 := Vec3.smul (1 / Vec3.length pr v) v

/-- `Vec3::refract` (Snell's law, `vec3.rs` lines 386-392). -/
def refract (pr : Prim) (v n : Vec3) (etaiOverEtat : ℚ) : Vec3 :=
  let cosTheta := n.dot (-v)
  let rOutParallel := Vec3.smul etaiOverEtat (v + Vec3.smul cosTheta n)
  let rOutPerp := Vec3.smul (-(pr.sqrtQ (1 - rOutParallel.lengthSquared))) n
  rOutParallel + rOutPerp

/-- An orthonormal basis (`onb.rs`). -/
structure ONB where
  u : Vec3
  v : Vec3
  w : Vec3

/-- `ONB::build_from_w` (`onb.rs`). -/
def ONB.buildFromW (pr : Prim) (n : Vec3) : ONB :=
  let w := unitVector pr n
  let a : Vec3 := if |w.x| > (9 : ℚ)/10 then ⟨0, 1, 0⟩ else ⟨1, 0, 0⟩
  let v := unitVector pr (w.cross a)
  let u := w.cross v
  ⟨u, v, w⟩

/-- `ONB::local`: `a[X]*u + a[Y]*v + a[Z]*w`. -/
def ONB.localV (b : ONB) (a : Vec3) : Vec3 :=
  Vec3.smul a.x b.u + Vec3.smul a.y b.v + Vec3.smul a.z b.w

/-- A sphere (`hittable/sphere.rs`), material abstracted to `μ`. -/
structure Sphere (μ : Type) where
  center : Vec3
  radius : ℚ
  material : μ

/-- `Sphere::hit` (`sphere.rs` lines 34-74): the half-`b` quadratic, rejecting
unless `discriminant > 0.0`, preferring the smaller root strictly inside
`(t_min, t_max)`, else the larger. -/
def Sphere.hit {μ : Type} (pr : Prim) (s : Sphere μ) (r : Ray) (tmin tmax : ℚ) :
    Option (HitRecord μ) :=
  let oc := r.origin - s.center
  let a := r.direction.lengthSquared
  let halfB := oc.dot r.direction
  let c := oc.lengthSquared - s.radius * s.radius
  let discriminant := halfB * halfB - a * c
  if discriminant > 0 then
    let root := pr.sqrtQ discriminant
    let solution1 := (-halfB - root) / a
    let solution2 := (-halfB + root) / a
    let t? := if solution1 < tmax ∧ solution1 > tmin then some solution1
              else if solution2 < tmax ∧ solution2 > tmin then some solution2
              else none
    match t? with
    | some t =>
      let hitPoint := r.at t
      some (HitRecord.make r t hitPoint (Vec3.divs (hitPoint - s.center) s.radius) s.material
        (pr.sphereUV (Vec3.divs (hitPoint - s.center) s.radius)))
    | none => none
  else none

/-- A linearly moving sphere (`hittable/moving_sphere.rs`). -/
structure MovingSphere (μ : Type) where
  center0 : Vec3
  center1 : Vec3
  time0 : ℚ
  time1 : ℚ
  radius : ℚ
  material : μ

/-- `MovingSphere::center`: linear interpolation between the keyframes. -/
def MovingSphere.center {μ : Type} (s : MovingSphere μ) (time : ℚ) : Vec3 :=
  s.center0 + Vec3.smul ((time - s.time0) / (s.time1 - s.time0)) (s.center1 - s.center0)

/-- `MovingSphere::hit` (`moving_sphere.rs` lines 77-117): the same quadratic
test against `center(ray.time)`.  Note the source's `uv` argument reads
`hit_point - self.center(ray.time) / self.radius` (no parentheses around the
subtraction), which is embedded verbatim. -/
def MovingSphere.hit {μ : Type} (pr : Prim) (s : MovingSphere μ) (r : Ray) (tmin tmax : ℚ) :
    Option (HitRecord μ) :=
  let oc := r.origin - s.center r.time
  let a := r.direction.lengthSquared
  let halfB := oc.dot r.direction
  let c := oc.lengthSquared - s.radius * s.radius
  let discriminant := halfB * halfB - a * c
  if discriminant > 0 then
    let root := pr.sqrtQ discriminant
    let solution1 := (-halfB - root) / a
    let solution2 := (-halfB + root) / a
    let t? := if solution1 < tmax ∧ solution1 > tmin then some solution1
              else if solution2 < tmax ∧ solution2 > tmin then some solution2
              else none
    match t? with
    | some t =>
      let hitPoint := r.at t
      some (HitRecord.make r t hitPoint (Vec3.divs (hitPoint - s.center r.time) s.radius)
        s.material (pr.sphereUV (hitPoint - Vec3.divs (s.center r.time) s.radius)))
    | none => none
  else none

/-- `impl Hittable for FlipFace::hit` (`flip_face.rs` lines 21-28): delegate
and negate `front_face`. -/
def flipFaceHit {μ : Type} (o : Obj μ) (r : Ray) (tmin tmax : ℚ) : Option (HitRecord μ) :=
  match o.hit r tmin tmax with
  | some rec => some { rec with frontFace := !rec.frontFace }
  | none => none

/-- A texture, specified at its interface boundary: a pure function of the
surface coordinates and the hit point (spec §6). -/
def Texture : Type := (ℚ × ℚ) → Vec3 → Vec3

/-- The closed material set (`material/mod.rs`). -/
inductive Material where
  | lambertian (albedo : Texture)
  | metal (albedo : Vec3) (fuzz : ℚ)
  | dielectric (albedo : Vec3) (refractiveIndex density : ℚ)
  | diffuseLight (emit : Texture)
  | isotropic (albedo : Texture)

/-- `PDF` (`pdf/mod.rs`): Cosine, Hittable-directed, or 50/50 Mixture. -/
inductive PDF where
  | cosine (uvw : ONB)
  | hittableP (obj : Obj Material) (origin : Vec3)
  | mixture (p1 p2 : PDF)

/-- `ScatterType` (`material/mod.rs` lines 22-26). -/
inductive ScatterType where
  | specular (ray : Ray)
  | pdfS (pdf : PDF)

/-- `Scatter` (`material/mod.rs` lines 29-33). -/
structure Scatter where
  attenuation : Vec3
  scattered : ScatterType

/-- `PDF::value` (`pdf/mod.rs`, `cosine_pdf.rs`, `hittable_pdf.rs`,
`mixture_pdf.rs`). -/
def PDF.value (pr : Prim) : PDF → Vec3 → ℚ
  | .cosine uvw, direction =>
    let cosine := (unitVector pr direction).dot uvw.w
    if cosine ≤ 0 then 0 else cosine / pr.piQ
  | .hittableP o origin, direction => o.pdfValue origin direction
  | .mixture p1 p2, direction =>
    (1 : ℚ)/2 * p1.value pr direction + (1 : ℚ)/2 * p2.value pr direction

/-- `PDF::generate`.  `HittablePDF::generate` ignores its `rng` argument and
calls the object's `random` sampler, as in the source. -/
def PDF.generate (pr : Prim) : PDF → List ℚ → Vec3 × List ℚ
  | .cosine uvw, rng =>
    let (v, rng') := pr.randCosineDir rng
    (uvw.localV v, rng')
  | .hittableP o origin, rng => (o.random origin, rng)
  | .mixture p1 p2, rng =>
    let (q, rng') := drawQ rng
    if q < (1 : ℚ)/2 then p1.generate pr rng' else p2.generate pr rng'

/-- `Lambertian::scatter`.  The snapshot's `lambertian.rs` predates the
`ScatterType` enum consumed by `renderer.rs`; per spec §4.4 ("returns
`Scatter{attenuation: texture_color, outcome: Importance(CosinePDF)}`") the
importance outcome carries the cosine PDF built from the hit normal. -/
def lambertianScatter (pr : Prim) (albedo : Texture) (rng : List ℚ) (_rayIn : Ray)
    (rec : HitRecord Material) : Option Scatter × List ℚ :=
  (some ⟨albedo rec.uv rec.hitPoint, .pdfS (.cosine (ONB.buildFromW pr rec.normal))⟩, rng)

/-- `Metal::scatter` (`metal.rs`): fuzz-perturbed mirror reflection, rejected
when the perturbed direction falls below the surface. -/
def metalScatter (pr : Prim) (albedo : Vec3) (fuzz : ℚ) (rng : List ℚ) (rayIn : Ray)
    (rec : HitRecord Material) : Option Scatter × List ℚ :=
  let reflected := Vec3.reflect (unitVector pr rayIn.direction) rec.normal
  let (rv, rng') := pr.randInUnitSphere rng
  let scattered : Ray := ⟨rec.hitPoint, reflected + Vec3.smul fuzz rv, rayIn.time⟩
  if scattered.direction.dot rec.normal > 0 then
    (some ⟨albedo, .specular scattered⟩, rng')
  else
    (none, rng')

/-- `schlick` (`dielectric.rs` lines 111-115). -/
def schlick (cosine refractiveIndex : ℚ) : ℚ :=
  let r0 := (1 - refractiveIndex) / (1 + refractiveIndex)
  let r0sq := r0 * r0
  r0sq + (1 - r0sq) * (1 - cosine) ^ (5 : ℕ)

/-- `Dielectric::scatter` (`dielectric.rs` lines 40-106).  The `||` between
the total-internal-reflection test and the Schlick draw short-circuits, so
the random sample is only consumed when the first disjunct is false. -/
def dielectricScatter (pr : Prim) (albedo : Vec3) (refractiveIndex density : ℚ)
    (rng : List ℚ) (rayIn : Ray) (rec : HitRecord Material) : Option Scatter × List ℚ :=
  let etaiOverEtat := if rec.frontFace then 1 / refractiveIndex else refractiveIndex
  let unitDirection := unitVector pr rayIn.direction
  let cosTheta := Min.min (rec.normal.dot (-unitDirection)) 1
  let sinTheta := pr.sqrtQ (1 - cosTheta * cosTheta)
  let reflectProb := schlick cosTheta etaiOverEtat
  let reflectScatter : Scatter :=
    ⟨albedo, .specular ⟨rec.hitPoint, Vec3.reflect unitDirection rec.normal, rayIn.time⟩⟩
  if etaiOverEtat * sinTheta > 1 then
    (some reflectScatter, rng)
  else
    let (q, rng') := drawQ rng
    if q < reflectProb then
      (some reflectScatter, rng')
    else
      let refracted := refract pr unitDirection rec.normal etaiOverEtat
      let absorbance : Vec3 :=
        if rec.frontFace then Vec3.zero
        else Vec3.smul (-rec.t) (Vec3.smul density (Vec3.mk 1 1 1 - albedo))
      let transparency : Vec3 := ⟨pr.expQ absorbance.x, pr.expQ absorbance.y, pr.expQ absorbance.z⟩
      (some ⟨transparency, .specular ⟨rec.hitPoint, refracted, rayIn.time⟩⟩, rng')

/-- `Isotropic::scatter` (`isotropic.rs`): a uniformly random direction from
the hit point; under the `ScatterType` enum of `material/mod.rs` the
pre-computed ray is a `Specular` outcome. -/
def isotropicScatter (pr : Prim) (albedo : Texture) (rng : List ℚ) (rayIn : Ray)
    (rec : HitRecord Material) : Option Scatter × List ℚ :=
  let (rv, rng') := pr.randInUnitSphere rng
  (some ⟨albedo rec.uv rec.hitPoint, .specular ⟨rec.hitPoint, rv, rayIn.time⟩⟩, rng')

/-- `Material::scatter` (`material/mod.rs` lines 94-107): note the source
dispatches on `rec.material`, not on `self`. -/
def Material.scatter (pr : Prim) (_self : Material) (rng : List ℚ) (ray : Ray)
    (rec : HitRecord Material) : Option Scatter × List ℚ :=
  match rec.material with
  | .lambertian a => lambertianScatter pr a rng ray rec
  | .metal a f => metalScatter pr a f rng ray rec
  | .dielectric a ri d => dielectricScatter pr a ri d rng ray rec
  | .diffuseLight _ => (none, rng)
  | .isotropic a => isotropicScatter pr a rng ray rec

/-- `Material::scattering_pdf` (`material/mod.rs` lines 111-122, dispatching
on `rec.material`; only `Lambertian` contributes, `lambertian.rs` lines
34-48). -/
def Material.scatteringPdf (pr : Prim) (_self : Material) (_rng : List ℚ) (_rayIn : Ray)
    (rec : HitRecord Material) (scattered : Ray) : ℚ :=
  match rec.material with
  | .lambertian _ =>
    let cosine := rec.normal.dot (unitVector pr scattered.direction)
    if cosine < 0 then 0 else cosine / pr.piQ
  | _ => 0

/-- `Material::emitted` (`material/mod.rs` lines 126-131): only
`DiffuseLight` emits; everything else returns `vec3!(0.0)`. -/
def Material.emitted (self : Material) (_rec : HitRecord Material) (uv : ℚ × ℚ)
    (point : Vec3) : Vec3 :=
  match self with
  | .diffuseLight e => e uv point
  | _ => Vec3.zero

/-- `ray_color` (`renderer.rs` lines 19-96), with the rng stream threaded
explicitly.  The `t_min = 0.001` shadow-acne bias and `t_max = +∞`
(`Prim.infQ`) match lines 30-34; the `Specular` branch returns
`attenuation * ray_color(specular_ray, depth-1)` exactly as lines 53-63 do,
and the `PDF` branch implements lines 65-87. -/
def rayColor (pr : Prim) (backgroundColor : Vec3) (bvh : BVH Material) (lights : Obj Material) :
    ℕ → Ray → List ℚ → Vec3 × List ℚ
  | 0, _, rng => (Vec3.zero, rng)
  | reflectionDepth + 1, ray, rng =>
    match bvh.hit ray (1/1000) pr.infQ with
    | some hitRecord =>
      let emitted := hitRecord.material.emitted hitRecord hitRecord.uv hitRecord.hitPoint
      match Material.scatter pr hitRecord.material rng ray hitRecord with
      | (some sc, rng1) =>
        match sc.scattered with
        | .specular specularRay =>
          let (c, rng2) := rayColor pr backgroundColor bvh lights reflectionDepth specularRay rng1
          (Vec3.mulv sc.attenuation c, rng2)
        | .pdfS scatterPdf =>
          let lightPdf := PDF.hittableP lights hitRecord.hitPoint
          let mixturePdf := PDF.mixture lightPdf scatterPdf
          let (dir, rng2) := mixturePdf.generate pr rng1
          let scattered : Ray := ⟨hitRecord.hitPoint, dir, ray.time⟩
          let pdfVal := mixturePdf.value pr scattered.direction
          let spdf := Material.scatteringPdf pr hitRecord.material rng2 ray hitRecord scattered
          let (c, rng3) := rayColor pr backgroundColor bvh lights reflectionDepth scattered rng2
          (emitted + Vec3.divs (Vec3.mulv (Vec3.smul spdf sc.attenuation) c) pdfVal, rng3)
      | (none, rng1) => (emitted, rng1)
    | none => (backgroundColor, rng)

/-- An `f32` that may be NaN: the scalar type of the pixel post-processing
stage (`renderer.rs` lines 145-161). -/
inductive QF where
  | nan
  | val (q : ℚ)
deriving DecidableEq, Repr

/-- `f32::is_nan`. -/
def QF.isNan : QF → Bool
  | .nan => true
  | .val _ => false

/-- `f32` multiplication on possibly-NaN values (NaN absorbs). -/
def QF.mul : QF → QF → QF
  | .val a, .val b => .val (a * b)
  | _, _ => .nan

/-- `f32::sqrt`: NaN on NaN or negative input. -/
def QF.sqrtF (pr : Prim) : QF → QF
  | .nan => .nan
  | .val q => if q < 0 then .nan else .val (pr.sqrtQ q)

/-- `x < m` on a possibly-NaN `x` (false for NaN, as for `f32`). -/
def QF.ltc : QF → ℚ → Bool
  | .nan, _ => false
  | .val q, m => q < m

/-- `x > m` on a possibly-NaN `x` (false for NaN, as for `f32`). -/
def QF.gtc : QF → ℚ → Bool
  | .nan, _ => false
  | .val q, m => q > m

/-- `util::clamp` (`util.rs` lines 36-44): `if x < min {min} else if x > max
{max} else {x}` — a NaN input falls through both comparisons and is
returned unchanged. -/
def clampF (x : QF) (mn mx : ℚ) : QF :=
  if x.ltc mn then .val mn else if x.gtc mx then .val mx else x

/-- Rust's saturating `as u32` cast: NaN to `0`, negative to `0`, otherwise
truncation capped at `u32::MAX`. -/
def QF.castU32 : QF → ℕ
  | .nan => 0
  | .val q => if q < 0 then 0 else Min.min q.floor.toNat (2 ^ 32 - 1)

/-- The per-pixel post-processing of `render` (`renderer.rs` lines 145-161):
replace NaN channels by `0.0`, average, gamma-2 correct, clamp to
`[0, 0.999]`, scale by `256` and cast to the integer channel. -/
def pixelFinish (pr : Prim) (samplesPerPixel : ℕ) (c : QF × QF × QF) : ℕ × ℕ × ℕ :=
  let r := if c.1.isNan then QF.val 0 else c.1
  let g := if c.2.1.isNan then QF.val 0 else c.2.1
  let b := if c.2.2.isNan then QF.val 0 else c.2.2
  let scale : ℚ := 1 / (samplesPerPixel : ℚ)
  let r := QF.sqrtF pr (QF.mul (QF.val scale) r)
  let g := QF.sqrtF pr (QF.mul (QF.val scale) g)
  let b := QF.sqrtF pr (QF.mul (QF.val scale) b)
  let ir := QF.castU32 (QF.mul (QF.val 256) (clampF r 0 (999/1000)))
  let ig := QF.castU32 (QF.mul (QF.val 256) (clampF g 0 (999/1000)))
  let ib := QF.castU32 (QF.mul (QF.val 256) (clampF b 0 (999/1000)))
  (ir, ig, ib)

/-- The per-pixel sample accumulation loop of `render` (`renderer.rs` lines
129-143): jitter `(u, v)` in the pixel footprint, generate the camera ray,
accumulate `ray_color`. -/
def samplePix (pr : Prim) (backgroundColor : Vec3) (bvh : BVH Material) (lights : Obj Material)
    (width height depth i j : ℕ) : ℕ → Vec3 → List ℚ → Vec3 × List ℚ
  | 0, acc, rng => (acc, rng)
  | n + 1, acc, rng =>
    let (du, rng1) := drawQ rng
    let u := ((i : ℚ) + du) / (width : ℚ)
    let (dv, rng2) := drawQ rng1
    let v := ((j : ℚ) + dv) / (height : ℚ)
    let (ray, rng3) := pr.getRay rng2 u v
    let (c, rng4) := rayColor pr backgroundColor bvh lights depth ray rng3
    samplePix pr backgroundColor bvh lights width height depth i j n (acc + c) rng4

/-- `render` (`renderer.rs` lines 102-164): the row-major pixel loop, with
each pixel's worker rng supplied by `rngOf` (the parallel `map_init` hands
every worker its own generator). -/
def render (pr : Prim) (width height samplesPerPixel maxReflectionDepth : ℕ)
    (bvh : BVH Material) (lights : Obj Material) (backgroundColor : Vec3)
    (rngOf : ℕ → List ℚ) : List (ℕ × ℕ × ℕ) :=
  (List.range (width * height)).map (fun screenPos =>
    let j := height - 1 - screenPos / width
    let i := screenPos % width
    let (color, _) := samplePix pr backgroundColor bvh lights width height maxReflectionDepth
      i j samplesPerPixel Vec3.zero (rngOf screenPos)
    pixelFinish pr samplesPerPixel (QF.val color.x, QF.val color.y, QF.val color.z))

/-! ### Reasoning-level predicates and helper definitions -/

/-- `big` contains `small` componentwise. -/
def contains (big small : AABB) : Prop :=
  big.min.x ≤ small.min.x ∧ big.min.y ≤ small.min.y ∧ big.min.z ≤ small.min.z ∧
  small.max.x ≤ big.max.x ∧ small.max.y ≤ big.max.y ∧ small.max.z ≤ big.max.z

/-- The candidate hits along `r` appear in nondecreasing `t` order (true of
every geometric hittable: a sphere's two quadratic roots are ordered, a
rectangle has one candidate, composites inherit it). -/
def SortedCands {μ : Type} (o : Obj μ) (r : Ray) : Prop :=
  List.Pairwise (fun a b => a.t ≤ b.t) (o.cands r)

/-- The object's reported box is conservative along `r`: whenever `hit`
reports a hit for a query interval, the slab test on `bounding_box(t0, t1)`
passes for that interval.  This is the (implicit) contract between
`Hittable::bounding_box` and BVH pruning. -/
def Conserv {μ : Type} (t0 t1 : ℚ) (o : Obj μ) (r : Ray) : Prop :=
  ∀ tmin tmax rec, o.hit r tmin tmax = some rec → (o.bbox t0 t1).hit r tmin tmax = true

/-- A hittable that is well-behaved along `r`: ordered candidates and a
conservative bounding box. -/
def WellB {μ : Type} (t0 t1 : ℚ) (r : Ray) (o : Obj μ) : Prop :=
  SortedCands o r ∧ Conserv t0 t1 o r

/-- Keep whichever of two optional hits is nearer, preferring the first on
ties (the accumulator update which both `World::hit` and `BVH::hit`
implement). -/
def minStep {μ : Type} (acc h : Option (HitRecord μ)) : Option (HitRecord μ) :=
  match acc, h with
  | none, h => h
  | some a, none => some a
  | some a, some b => if b.t < a.t then some b else some a

/-- The nearest hit of a list of optional hits, earliest-first on ties. -/
def minFirst {μ : Type} (l : List (Option (HitRecord μ))) : Option (HitRecord μ) :=
  l.foldl minStep none

/-- Structural invariant of a BVH tree: every node's box contains its
children's boxes, and every leaf's box is its object's
`bounding_box(t0, t1)`. -/
def BoxesOK {μ : Type} (t0 t1 : ℚ) : BVH μ → Prop
  | .leaf bbox _ o => bbox = o.bbox t0 t1
  | .node bbox _ l r =>
    contains bbox l.bbox ∧ contains bbox r.bbox ∧ BoxesOK t0 t1 l ∧ BoxesOK t0 t1 r

/-- The invariant claim C8 asserts: each internal node's box is the
`surrounding_box` of its children's boxes and its size the sum of theirs;
each leaf has size 1.  The box half is refutable: `inner` folds `main_box`
over its entire vector while the children cover only the first `n`. -/
def NodesOK {μ : Type} : BVH μ → Prop
  | .leaf _ size _ => size = 1
  | .node bbox size l r =>
    bbox = AABB.surroundingBox l.bbox r.bbox ∧ size = l.size + r.size ∧ NodesOK l ∧ NodesOK r

/-- The size half of that invariant, which does hold of the built tree. -/
def SizesOK {μ : Type} : BVH μ → Prop
  | .leaf _ size _ => size = 1
  | .node _ size l r => size = l.size + r.size ∧ SizesOK l ∧ SizesOK r

/-- Modelled from the spec (claim C6's reading of §4.2): the hit parameter
the claim predicts for a sphere — reject only `discriminant < 0`, then the
smaller root if it lies in the **closed** interval `[t_min, t_max]`, else
the larger, else none. -/
def claimSphereHitT {μ : Type} (pr : Prim) (s : Sphere μ) (r : Ray) (tmin tmax : ℚ) :
    Option ℚ :=
  let oc := r.origin - s.center
  let a := r.direction.lengthSquared
  let halfB := oc.dot r.direction
  let c := oc.lengthSquared - s.radius * s.radius
  let discriminant := halfB * halfB - a * c
  if discriminant < 0 then none
  else
    let root := pr.sqrtQ discriminant
    let solution1 := (-halfB - root) / a
    let solution2 := (-halfB + root) / a
    if tmin ≤ solution1 ∧ solution1 ≤ tmax then some solution1
    else if tmin ≤ solution2 ∧ solution2 ≤ tmax then some solution2
    else none

/-! ### Concrete instances used by witnesses and counterexamples -/

/-- A concrete ray along `(1,1,1)` from the origin. -/
def rayCE : Ray := ⟨⟨0, 0, 0⟩, ⟨1, 1, 1⟩, 0⟩

/-- A hit at `t = 5` on material reference `0`. -/
def recA : HitRecord ℕ :=
  { hitPoint := ⟨5, 5, 5⟩, normal := ⟨0, 0, 1⟩, t := 5, frontFace := true,
    material := 0, uv := (0, 0) }

/-- A hit at the same `t = 5` on material reference `1`. -/
def recB : HitRecord ℕ :=
  { hitPoint := ⟨5, 5, 5⟩, normal := ⟨0, 0, 1⟩, t := 5, frontFace := true,
    material := 1, uv := (0, 0) }

/-- An object hit by `rayCE` at `t = 5` (material `0`), whose box
`[0,10]³` starts at the origin (so it sorts after `objB` on the x axis). -/
def objA : Obj ℕ :=
  { cands := fun r => if r = rayCE then [recA] else []
    bbox := fun _ _ => ⟨⟨0, 0, 0⟩, ⟨10, 10, 10⟩⟩
    pdfValue := fun _ _ => 0
    random := fun _ => ⟨1, 0, 0⟩ }

/-- An object hit by `rayCE` at the same `t = 5` (material `1`), whose box
`[-10,10]³` sorts before `objA`'s on the x axis. -/
def objB : Obj ℕ :=
  { cands := fun r => if r = rayCE then [recB] else []
    bbox := fun _ _ => ⟨⟨-10, -10, -10⟩, ⟨10, 10, 10⟩⟩
    pdfValue := fun _ _ => 0
    random := fun _ => ⟨1, 0, 0⟩ }

/-- An object whose `pdf_value` is the constant `7` (a stand-in for a light),
used against `World`'s trait-default `pdf_value`. -/
def objP : Obj ℕ :=
  { cands := fun _ => []
    bbox := fun _ _ => ⟨⟨0, 0, 0⟩, ⟨1, 1, 1⟩⟩
    pdfValue := fun _ _ => 7
    random := fun _ => ⟨0, 1, 0⟩ }

/-- The first of three unit cubes on the x axis: `x ∈ [0, 1]`. -/
def objU1 : Obj ℕ :=
  { cands := fun _ => []
    bbox := fun _ _ => ⟨⟨0, 0, 0⟩, ⟨1, 1, 1⟩⟩
    pdfValue := fun _ _ => 0
    random := fun _ => ⟨1, 0, 0⟩ }

/-- The second unit cube: `x ∈ [1, 2]`. -/
def objU2 : Obj ℕ :=
  { cands := fun _ => []
    bbox := fun _ _ => ⟨⟨1, 0, 0⟩, ⟨2, 1, 1⟩⟩
    pdfValue := fun _ _ => 0
    random := fun _ => ⟨1, 0, 0⟩ }

/-- The far unit cube: `x ∈ [100, 101]`.  Together the three cubes make the
SAH split the first two off, with the far cube still inside the left
child's `main_box` union. -/
def objU3 : Obj ℕ :=
  { cands := fun _ => []
    bbox := fun _ _ => ⟨⟨100, 0, 0⟩, ⟨101, 1, 1⟩⟩
    pdfValue := fun _ _ => 0
    random := fun _ => ⟨1, 0, 0⟩ }

/-- A concrete primitive pack whose `sqrt` is the constant `0` (faithful to
the real square root at the only point where it is consulted, `0`). -/
def prZero : Prim :=
  { sqrtQ := fun _ => 0
    expQ := fun _ => 0
    piQ := 0
    infQ := 0
    sphereUV := fun _ => (0, 0)
    randCosineDir := fun rng => (⟨0, 0, 0⟩, rng)
    randInUnitSphere := fun rng => (⟨0, 0, 0⟩, rng)
    getRay := fun rng _ _ => (rayCE, rng) }

/-- A concrete primitive pack whose `sqrt` is the identity (faithful to the
real square root at `0` and `1`, the points where it is consulted). -/
def prId : Prim :=
  { sqrtQ := fun q => q
    expQ := fun q => q
    piQ := 3
    infQ := 1000000
    sphereUV := fun _ => (0, 0)
    randCosineDir := fun rng => (⟨0, 0, 0⟩, rng)
    randInUnitSphere := fun rng => (⟨0, 0, 0⟩, rng)
    getRay := fun rng _ _ => (rayCE, rng) }

/-- A concrete primitive pack whose `sqrt` is the constant `1` (faithful at
`1`, the only point where it is consulted by the metal witness). -/
def prUnit : Prim :=
  { sqrtQ := fun _ => 1
    expQ := fun _ => 1
    piQ := 3
    infQ := 1000000
    sphereUV := fun _ => (0, 0)
    randCosineDir := fun rng => (⟨0, 0, 0⟩, rng)
    randInUnitSphere := fun rng => (⟨0, 0, 0⟩, rng)
    getRay := fun rng _ _ => (rayCE, rng) }

/-- The unit sphere at the origin. -/
def sphCE : Sphere ℕ := { center := ⟨0, 0, 0⟩, radius := 1, material := 0 }

/-- A ray tangent to `sphCE`: the intersection discriminant is exactly `0`. -/
def rayTan : Ray := ⟨⟨0, 1, -2⟩, ⟨0, 0, 1⟩, 0⟩

/-- A candidate hit whose normal opposes `rayCE`'s direction. -/
def recF : HitRecord ℕ :=
  { hitPoint := ⟨5, 5, 5⟩, normal := ⟨0, 0, -1⟩, t := 5, frontFace := true,
    material := 0, uv := (0, 0) }

/-- An object producing `recF` on `rayCE`, wrapped by `FlipFace` in the
orientation witness. -/
def objF : Obj ℕ :=
  { cands := fun r => if r = rayCE then [recF] else []
    bbox := fun _ _ => ⟨⟨0, 0, 0⟩, ⟨10, 10, 10⟩⟩
    pdfValue := fun _ _ => 0
    random := fun _ => ⟨1, 0, 0⟩ }

/-- A fuzzless metal material. -/
def matM : Material := Material.metal ⟨2, 3, 4⟩ 0

/-- A hit on `matM` with normal `(0,0,1)` at the origin. -/
def recM : HitRecord Material :=
  { hitPoint := ⟨0, 0, 0⟩, normal := ⟨0, 0, 1⟩, t := 1, frontFace := true,
    material := matM, uv := (0, 0) }

/-- A ray that `recM`'s metal reflects to direction `(1,1,1)`. -/
def rayM : Ray := ⟨⟨0, 0, 2⟩, ⟨1, 1, -1⟩, 0⟩

/-- An object that reports `recM` on every ray. -/
def objM : Obj Material :=
  { cands := fun _ => [recM]
    bbox := fun _ _ => ⟨⟨-1000, -1000, -1000⟩, ⟨1000, 1000, 1000⟩⟩
    pdfValue := fun _ _ => 0
    random := fun _ => ⟨1, 0, 0⟩ }

/-- A one-leaf BVH holding `objM`. -/
def bvhM : BVH Material := BVH.leaf ⟨⟨-1000, -1000, -1000⟩, ⟨1000, 1000, 1000⟩⟩ 1 objM

/-- `oc` of `Sphere::hit`: `ray.origin - self.center`. -/
def sphereOC {μ : Type} (s : Sphere μ) (r : Ray) : Vec3 := r.origin - s.center

/-- The `discriminant` of `Sphere::hit`: `half_b * half_b - a * c`. -/
def sphereDisc {μ : Type} (s : Sphere μ) (r : Ray) : ℚ :=
  (sphereOC s r).dot r.direction * (sphereOC s r).dot r.direction -
    r.direction.lengthSquared * ((sphereOC s r).lengthSquared - s.radius * s.radius)

/-- `solution_1` of `Sphere::hit`: `(-half_b - root) / a`. -/
def sphereSol1 {μ : Type} (pr : Prim) (s : Sphere μ) (r : Ray) : ℚ :=
  (-((sphereOC s r).dot r.direction) - pr.sqrtQ (sphereDisc s r)) / r.direction.lengthSquared

/-- `solution_2` of `Sphere::hit`: `(-half_b + root) / a`. -/
def sphereSol2 {μ : Type} (pr : Prim) (s : Sphere μ) (r : Ray) : ℚ :=
  (-((sphereOC s r).dot r.direction) + pr.sqrtQ (sphereDisc s r)) / r.direction.lengthSquared

/-! ### Vec3 algebra -/

@[simp] theorem Vec3.add_def (a b : Vec3) : a + b = ⟨a.x + b.x, a.y + b.y, a.z + b.z⟩ := rfl

@[simp] theorem Vec3.sub_def (a b : Vec3) : a - b = ⟨a.x - b.x, a.y - b.y, a.z - b.z⟩ := rfl

@[simp] theorem Vec3.neg_def (a : Vec3) : -a = ⟨-a.x, -a.y, -a.z⟩ := rfl

theorem Vec3.zero_add' (a : Vec3) : Vec3.zero + a = a := by
  cases a; simp [Vec3.zero]

theorem Vec3.add_zero' (a : Vec3) : a + Vec3.zero = a := by
  cases a; simp [Vec3.zero]

/-! ### AABB algebra -/

theorem surroundingBox_comm (a b : AABB) :
    AABB.surroundingBox a b = AABB.surroundingBox b a := by
  simp [AABB.surroundingBox, min_comm, max_comm]

theorem surroundingBox_assoc (a b c : AABB) :
    AABB.surroundingBox a (AABB.surroundingBox b c) =
      AABB.surroundingBox (AABB.surroundingBox a b) c := by
  simp [AABB.surroundingBox, min_assoc, max_assoc]

theorem contains_surr_left (a b : AABB) : contains (AABB.surroundingBox a b) a := by
  simp [contains, AABB.surroundingBox]

theorem contains_surr_right (a b : AABB) : contains (AABB.surroundingBox a b) b := by
  simp [contains, AABB.surroundingBox]

theorem contains_trans {a b c : AABB} (h1 : contains a b) (h2 : contains b c) :
    contains a c := by
  obtain ⟨p1, p2, p3, p4, p5, p6⟩ := h1
  obtain ⟨q1, q2, q3, q4, q5, q6⟩ := h2
  exact ⟨p1.trans q1, p2.trans q2, p3.trans q3, q4.trans p4, q5.trans p5, q6.trans p6⟩

theorem contains_refl (a : AABB) : contains a a :=
  ⟨le_refl _, le_refl _, le_refl _, le_refl _, le_refl _, le_refl _⟩

/-- Widening the box slab and the accumulator interval preserves a successful
axis test and widens its output interval. -/
theorem slabAxis_mono {bmin bmax bmin' bmax' o d la ha la' ha' : ℚ} {res : ℚ × ℚ}
    (hmin : bmin' ≤ bmin) (hmax : bmax ≤ bmax')
    (ha1 : la' ≤ la) (ha2 : ha ≤ ha')
    (h : AABB.slabAxis bmin bmax o d (la, ha) = some res) :
    ∃ res', AABB.slabAxis bmin' bmax' o d (la', ha') = some res' ∧
      res'.1 ≤ res.1 ∧ res.2 ≤ res'.2 := by
  simp only [AABB.slabAxis] at h ⊢
  set invD := 1 / d with hinv
  by_cases hd : invD < 0
  · simp only [hd, if_true] at h ⊢
    have ht0 : (bmax' - o) * invD ≤ (bmax - o) * invD := by
      apply mul_le_mul_of_nonpos_right _ (le_of_lt hd)
      linarith
    have ht1 : (bmin - o) * invD ≤ (bmin' - o) * invD := by
      apply mul_le_mul_of_nonpos_right _ (le_of_lt hd)
      linarith
    by_cases hg : (if (bmin - o) * invD < ha then (bmin - o) * invD else ha) ≤
        (if (bmax - o) * invD > la then (bmax - o) * invD else la)
    · simp [hg] at h
    · simp only [hg, if_false, Option.some.injEq] at h
      subst h
      have hlo : (if (bmax' - o) * invD > la' then (bmax' - o) * invD else la') ≤
          (if (bmax - o) * invD > la then (bmax - o) * invD else la) := by
        split <;> split <;> push_neg at * <;> first
          | exact le_trans (by assumption) (by linarith)
          | linarith
      have hhi : (if (bmin - o) * invD < ha then (bmin - o) * invD else ha) ≤
          (if (bmin' - o) * invD < ha' then (bmin' - o) * invD else ha') := by
        split <;> split <;> push_neg at * <;> first
          | exact le_trans (by assumption) (by linarith)
          | linarith
      push_neg at hg
      have : ¬ ((if (bmin' - o) * invD < ha' then (bmin' - o) * invD else ha') ≤
          (if (bmax' - o) * invD > la' then (bmax' - o) * invD else la')) := by
        push_neg
        calc (if (bmax' - o) * invD > la' then (bmax' - o) * invD else la')
            ≤ _ := hlo
          _ < _ := hg
          _ ≤ _ := hhi
      simp only [this, if_false, Option.some.injEq]
      exact ⟨_, rfl, hlo, hhi⟩
  · simp only [hd, if_false] at h ⊢
    have hnn : 0 ≤ invD := le_of_not_lt hd
    have ht0 : (bmin' - o) * invD ≤ (bmin - o) * invD := by
      apply mul_le_mul_of_nonneg_right _ hnn
      linarith
    have ht1 : (bmax - o) * invD ≤ (bmax' - o) * invD := by
      apply mul_le_mul_of_nonneg_right _ hnn
      linarith
    by_cases hg : (if (bmax - o) * invD < ha then (bmax - o) * invD else ha) ≤
        (if (bmin - o) * invD > la then (bmin - o) * invD else la)
    · simp [hg] at h
    · simp only [hg, if_false, Option.some.injEq] at h
      subst h
      have hlo : (if (bmin' - o) * invD > la' then (bmin' - o) * invD else la') ≤
          (if (bmin - o) * invD > la then (bmin - o) * invD else la) := by
        split <;> split <;> push_neg at * <;> first
          | exact le_trans (by assumption) (by linarith)
          | linarith
      have hhi : (if (bmax - o) * invD < ha then (bmax - o) * invD else ha) ≤
          (if (bmax' - o) * invD < ha' then (bmax' - o) * invD else ha') := by
        split <;> split <;> push_neg at * <;> first
          | exact le_trans (by assumption) (by linarith)
          | linarith
      push_neg at hg
      have : ¬ ((if (bmax' - o) * invD < ha' then (bmax' - o) * invD else ha') ≤
          (if (bmin' - o) * invD > la' then (bmin' - o) * invD else la')) := by
        push_neg
        calc (if (bmin' - o) * invD > la' then (bmin' - o) * invD else la')
            ≤ _ := hlo
          _ < _ := hg
          _ ≤ _ := hhi
      simp only [this, if_false, Option.some.injEq]
      exact ⟨_, rfl, hlo, hhi⟩

/-- A box containing another is hit whenever the smaller one is. -/
theorem aabbHit_mono {b' b : AABB} {r : Ray} {tmin tmax : ℚ}
    (hc : contains b' b) (h : b.hit r tmin tmax = true) : b'.hit r tmin tmax = true := by
  obtain ⟨p1, p2, p3, p4, p5, p6⟩ := hc
  simp only [AABB.hit] at h ⊢
  cases hx : AABB.slabAxis b.min.x b.max.x r.origin.x r.direction.x (tmin, tmax) with
  | none => simp [hx] at h
  | some acc1 =>
    obtain ⟨acc1', hx', h1a, h1b⟩ := slabAxis_mono p1 p4 (le_refl tmin) (le_refl tmax) hx
    simp only [hx] at h
    simp only [hx']
    cases hy : AABB.slabAxis b.min.y b.max.y r.origin.y r.direction.y acc1 with
    | none => simp [hy] at h
    | some acc2 =>
      obtain ⟨acc2', hy', h2a, h2b⟩ := slabAxis_mono p2 p5 h1a h1b hy
      simp only [hy] at h
      simp only [hy']
      cases hz : AABB.slabAxis b.min.z b.max.z r.origin.z r.direction.z acc2 with
      | none => simp [hz] at h
      | some acc3 =>
        obtain ⟨acc3', hz', _, _⟩ := slabAxis_mono p3 p6 h2a h2b hz
        simp [hz']

/-! ### `Obj.hit` and `World::hit` lemmas -/

theorem Obj.hit_some {μ : Type} {o : Obj μ} {r : Ray} {tmin tmax : ℚ} {rec : HitRecord μ}
    (h : o.hit r tmin tmax = some rec) :
    rec ∈ o.cands r ∧ tmin < rec.t ∧ rec.t < tmax := by
  refine ⟨List.mem_of_find?_eq_some h, ?_, ?_⟩ <;>
    · have := List.find?_some h
      simp only [Bool.and_eq_true, decide_eq_true_eq] at this
      tauto

/-- Narrowing the query interval of a sorted candidate search keeps the same
first hit when it is near enough, and finds nothing otherwise. -/
theorem find?_narrow {μ : Type} {l : List (HitRecord μ)}
    (hs : l.Pairwise (fun a b => a.t ≤ b.t)) {tmin c tmax : ℚ} (hc : c ≤ tmax) :
    l.find? (fun rec => decide (tmin < rec.t) && decide (rec.t < c)) =
      (match l.find? (fun rec => decide (tmin < rec.t) && decide (rec.t < tmax)) with
       | some rec => if rec.t < c then some rec else none
       | none => none) := by
  induction l with
  | nil => simp
  | cons a l ih =>
    have hs' := (List.pairwise_cons.mp hs).2
    have hhead := (List.pairwise_cons.mp hs).1
    rw [List.find?_cons, List.find?_cons]
    by_cases h1 : tmin < a.t
    · by_cases h2 : a.t < tmax
      · by_cases h3 : a.t < c
        · simp [h1, h2, h3]
        · have hrest : l.find? (fun rec => decide (tmin < rec.t) && decide (rec.t < c)) =
              none := by
            rw [List.find?_eq_none]
            intro x hx
            have : a.t ≤ x.t := hhead x hx
            simp only [Bool.and_eq_true, decide_eq_true_eq, not_and]
            intro _
            push_neg at h3
            linarith
          simp [h1, h2, h3, hrest]
      · have h3 : ¬ a.t < c := by push_neg at h2 ⊢; linarith
        simp only [h1, h2, h3, decide_True, decide_False, Bool.true_and, Bool.and_false]
        exact ih hs'
    · simp only [h1, decide_False, Bool.false_and]
      exact ih hs'

theorem Obj.hit_narrow {μ : Type} {o : Obj μ} {r : Ray} (hs : SortedCands o r)
    {tmin c tmax : ℚ} (hc : c ≤ tmax) :
    o.hit r tmin c =
      (match o.hit r tmin tmax with
       | some rec => if rec.t < c then some rec else none
       | none => none) :=
  find?_narrow hs hc

theorem worldF_none {μ : Type} (r : Ray) (tmin tmax : ℚ) (o : Obj μ) :
    worldF r tmin tmax none o = o.hit r tmin tmax := by
  unfold worldF
  cases o.hit r tmin tmax <;> rfl

theorem worldF_some {μ : Type} (r : Ray) (tmin tmax : ℚ) (a : HitRecord μ) (o : Obj μ) :
    worldF r tmin tmax (some a) o =
      (match o.hit r tmin a.t with
       | some rec => some rec
       | none => some a) := rfl

theorem foldl_worldF_some_isSome {μ : Type} (r : Ray) (tmin tmax : ℚ)
    (l : List (Obj μ)) : ∀ (a : HitRecord μ),
    (l.foldl (worldF r tmin tmax) (some a)).isSome = true := by
  induction l with
  | nil => intro a; rfl
  | cons o l ih =>
    intro a
    rw [List.foldl_cons, worldF_some]
    cases o.hit r tmin a.t with
    | some rec => exact ih rec
    | none => exact ih a

/-- Once the accumulator holds a hit, the captured original `t_max` is never
consulted again. -/
theorem foldl_worldF_capture {μ : Type} (r : Ray) (tmin tmaxA tmaxB : ℚ)
    (l : List (Obj μ)) : ∀ (a : HitRecord μ),
    l.foldl (worldF r tmin tmaxA) (some a) = l.foldl (worldF r tmin tmaxB) (some a) := by
  induction l with
  | nil => intro a; rfl
  | cons o l ih =>
    intro a
    rw [List.foldl_cons, List.foldl_cons, worldF_some, worldF_some]
    cases o.hit r tmin a.t with
    | some rec => exact ih rec
    | none => exact ih a

theorem foldl_worldF_bound {μ : Type} {r : Ray} {tmin tmax : ℚ} (l : List (Obj μ)) :
    ∀ (acc : Option (HitRecord μ)),
    (∀ a, acc = some a → tmin < a.t ∧ a.t < tmax) →
    ∀ h, l.foldl (worldF r tmin tmax) acc = some h → tmin < h.t ∧ h.t < tmax := by
  induction l with
  | nil =>
    intro acc hacc h hh
    exact hacc h hh
  | cons o l ih =>
    intro acc hacc h hh
    rw [List.foldl_cons] at hh
    refine ih _ ?_ h hh
    intro a ha
    cases acc with
    | some b =>
      rw [worldF_some] at ha
      cases hoh : o.hit r tmin b.t with
      | some rec =>
        rw [hoh] at ha
        cases ha
        obtain ⟨_, h1, h2⟩ := Obj.hit_some hoh
        have := (hacc b rfl).2
        exact ⟨h1, lt_trans h2 this⟩
      | none =>
        rw [hoh] at ha
        cases ha
        exact hacc a rfl
    | none =>
      rw [worldF_none] at ha
      exact Obj.hit_some ha |>.2

theorem worldHit_bound {μ : Type} {l : List (Obj μ)} {r : Ray} {tmin tmax : ℚ}
    {h : HitRecord μ} (hh : worldHit l r tmin tmax = some h) :
    tmin < h.t ∧ h.t < tmax :=
  foldl_worldF_bound l none (by intro a ha; cases ha) h hh

/-- With an accumulated hit inside the interval, one `World::hit` step over
well-behaved objects is exactly the `minStep` of the full-interval query. -/
theorem worldF_some_minStep {μ : Type} {r : Ray} {tmin tmax : ℚ} {a : HitRecord μ}
    {o : Obj μ} (hs : SortedCands o r) (hb : a.t < tmax) :
    worldF r tmin tmax (some a) o = minStep (some a) (o.hit r tmin tmax) := by
  rw [worldF_some, Obj.hit_narrow hs (le_of_lt hb)]
  cases ho : o.hit r tmin tmax with
  | none => rfl
  | some rec =>
    by_cases hr : rec.t < a.t <;> simp [hr, minStep]

/-- `World::hit` over well-behaved objects computes the earliest-first
minimum of the individual full-interval hits. -/
theorem foldl_worldF_minFirst {μ : Type} {r : Ray} {tmin tmax : ℚ} (l : List (Obj μ))
    (hw : ∀ o ∈ l, SortedCands o r) :
    ∀ (a : HitRecord μ), tmin < a.t → a.t < tmax →
    l.foldl (worldF r tmin tmax) (some a) =
      (l.map (fun o => o.hit r tmin tmax)).foldl minStep (some a) := by
  induction l with
  | nil => intro a _ _; rfl
  | cons o l ih =>
    intro a ha1 ha2
    rw [List.foldl_cons, List.map_cons, List.foldl_cons,
      worldF_some_minStep (hw o (by simp)) ha2]
    cases ho : o.hit r tmin tmax with
    | none =>
      simp only [minStep]
      exact ih (fun o' ho' => hw o' (by simp [ho'])) a ha1 ha2
    | some rec =>
      obtain ⟨_, hr1, hr2⟩ := Obj.hit_some ho
      simp only [minStep]
      by_cases hlt : rec.t < a.t
      · simp only [hlt, if_true]
        exact ih (fun o' ho' => hw o' (by simp [ho'])) rec hr1 hr2
      · simp only [hlt, if_false]
        exact ih (fun o' ho' => hw o' (by simp [ho'])) a ha1 ha2

theorem worldHit_minFirst {μ : Type} {r : Ray} {tmin tmax : ℚ} (l : List (Obj μ))
    (hw : ∀ o ∈ l, SortedCands o r) :
    worldHit l r tmin tmax = minFirst (l.map (fun o => o.hit r tmin tmax)) := by
  induction l with
  | nil => rfl
  | cons o l ih =>
    unfold worldHit minFirst
    rw [List.foldl_cons, List.map_cons, List.foldl_cons, worldF_none]
    cases ho : o.hit r tmin tmax with
    | none =>
      simp only [minStep]
      exact ih (fun o' ho' => hw o' (by simp [ho']))
    | some rec =>
      obtain ⟨_, hr1, hr2⟩ := Obj.hit_some ho
      simp only [minStep]
      exact foldl_worldF_minFirst l (fun o' ho' => hw o' (by simp [ho'])) rec hr1 hr2

theorem worldHit_none_of_all {μ : Type} {r : Ray} {tmin tmax : ℚ} (l : List (Obj μ))
    (h : ∀ o ∈ l, o.hit r tmin tmax = none) : worldHit l r tmin tmax = none := by
  induction l with
  | nil => rfl
  | cons o l ih =>
    unfold worldHit
    rw [List.foldl_cons, worldF_none, h o (by simp)]
    exact ih (fun o' ho' => h o' (by simp [ho']))

theorem worldHit_append {μ : Type} (l1 l2 : List (Obj μ)) (r : Ray) (tmin tmax : ℚ) :
    worldHit (l1 ++ l2) r tmin tmax =
      l2.foldl (worldF r tmin tmax) (worldHit l1 r tmin tmax) := by
  unfold worldHit
  exact List.foldl_append _ _ _ _

/-- Restarting the scan of a suffix with the accumulated hit as both
accumulator and `t_max` is the same as scanning the suffix from scratch with
that `t_max` and then combining. -/
theorem foldl_worldF_restart {μ : Type} {r : Ray} {tmin : ℚ} (l : List (Obj μ)) :
    ∀ (a : HitRecord μ),
    l.foldl (worldF r tmin a.t) (some a) =
      (match l.foldl (worldF r tmin a.t) none with
       | none => some a
       | some h => some h) := by
  induction l with
  | nil => intro a; rfl
  | cons o l ih =>
    intro a
    rw [List.foldl_cons, List.foldl_cons, worldF_some, worldF_none]
    cases ho : o.hit r tmin a.t with
    | some rec =>
      have hsome := foldl_worldF_some_isSome r tmin a.t l rec
      obtain ⟨h, hh⟩ := Option.isSome_iff_exists.mp hsome
      rw [hh]
    | none => exact ih a

/-! ### BVH traversal refines the linear scan -/

theorem BoxesOK_leaf_contains {μ : Type} {t0 t1 : ℚ} {b : BVH μ} (hb : BoxesOK t0 t1 b)
    {o : Obj μ} (ho : o ∈ b.leafObjs) : contains b.bbox (o.bbox t0 t1) := by
  induction b with
  | leaf bbox sz obj =>
    simp only [BVH.leafObjs, List.mem_singleton] at ho
    subst ho
    have hb' : bbox = o.bbox t0 t1 := hb
    rw [show (BVH.leaf bbox sz o).bbox = bbox from rfl, hb']
    exact contains_refl _
  | node bbox sz l rr ihl ihr =>
    obtain ⟨hcl, hcr, hl, hr⟩ := hb
    simp only [BVH.leafObjs, List.mem_append] at ho
    rcases ho with ho | ho
    · exact contains_trans hcl (ihl hl ho)
    · exact contains_trans hcr (ihr hr ho)

/-- `BVH::hit` equals `World::hit`'s linear scan over the tree's leaves, for
any tree whose boxes satisfy the structural invariant and whose leaf objects
are well-behaved along the ray. -/
theorem bvhHit_eq_worldHit {μ : Type} {t0 t1 : ℚ} {r : Ray} {b : BVH μ}
    (hb : BoxesOK t0 t1 b) (hw : ∀ o ∈ b.leafObjs, WellB t0 t1 r o) :
    ∀ tmin tmax, b.hit r tmin tmax = worldHit b.leafObjs r tmin tmax := by
  induction b with
  | leaf bbox sz obj =>
    intro tmin tmax
    have hworld : worldHit (BVH.leaf bbox sz obj).leafObjs r tmin tmax =
        obj.hit r tmin tmax := by
      unfold worldHit BVH.leafObjs
      rw [List.foldl_cons, worldF_none, List.foldl_nil]
    rw [hworld]
    simp only [BVH.hit]
    by_cases hbx : bbox.hit r tmin tmax
    · rw [if_pos hbx]
    · rw [if_neg hbx]
      cases ho : obj.hit r tmin tmax with
      | none => rfl
      | some rec =>
        exfalso
        have hcons := (hw obj (by simp [BVH.leafObjs])).2
        have hbhit := hcons tmin tmax rec ho
        have hb' : bbox = obj.bbox t0 t1 := hb
        rw [hb'] at hbx
        exact hbx hbhit
  | node bbox sz l rr ihl ihr =>
    intro tmin tmax
    obtain ⟨hcl, hcr, hbl, hbr⟩ := hb
    have hwl : ∀ o ∈ l.leafObjs, WellB t0 t1 r o := by
      intro o ho; exact hw o (by simp [BVH.leafObjs, ho])
    have hwr : ∀ o ∈ rr.leafObjs, WellB t0 t1 r o := by
      intro o ho; exact hw o (by simp [BVH.leafObjs, ho])
    simp only [BVH.hit]
    by_cases hbx : bbox.hit r tmin tmax
    · rw [if_pos hbx]
      rw [show (BVH.node bbox sz l rr).leafObjs = l.leafObjs ++ rr.leafObjs from rfl,
        worldHit_append]
      rw [ihl hbl hwl]
      cases hL : worldHit l.leafObjs r tmin tmax with
      | none =>
        rw [ihr hbr hwr]
        rw [show (match (none : Option (HitRecord μ)) with
          | some rec => rec.t | none => tmax) = tmax from rfl]
        rw [show List.foldl (worldF r tmin tmax) none rr.leafObjs =
          worldHit rr.leafObjs r tmin tmax from rfl]
        cases hR : worldHit rr.leafObjs r tmin tmax with
        | none => rfl
        | some h2 => rfl
      | some h1 =>
        obtain ⟨hb1, hb2⟩ := worldHit_bound hL
        rw [ihr hbr hwr]
        rw [show (match (some h1 : Option (HitRecord μ)) with
          | some rec => rec.t | none => tmax) = h1.t from rfl]
        rw [foldl_worldF_capture r tmin tmax h1.t rr.leafObjs h1,
          foldl_worldF_restart]
        rw [show List.foldl (worldF r tmin h1.t) none rr.leafObjs =
          worldHit rr.leafObjs r tmin h1.t from rfl]
        cases hR : worldHit rr.leafObjs r tmin h1.t with
        | none => rfl
        | some h2 =>
          obtain ⟨hc1, hc2⟩ := worldHit_bound hR
          rw [show (match (some h1 : Option (HitRecord μ)), (some h2 : Option (HitRecord μ)) with
            | h, none => h
            | none, h => h
            | some hl, some hr => if hl.t < hr.t then some hl else some hr) =
            (if h1.t < h2.t then some h1 else some h2) from rfl]
          rw [if_neg (by push_neg; exact le_of_lt hc2)]
    · rw [if_neg hbx]
      have : ∀ o ∈ (BVH.node bbox sz l rr).leafObjs, o.hit r tmin tmax = none := by
        intro o ho
        cases hoh : o.hit r tmin tmax with
        | none => rfl
        | some rec =>
          exfalso
          have hcons := (hw o ho).2 tmin tmax rec hoh
          have hcont : contains (BVH.node bbox sz l rr).bbox (o.bbox t0 t1) :=
            BoxesOK_leaf_contains
              (show BoxesOK t0 t1 (BVH.node bbox sz l rr) from ⟨hcl, hcr, hbl, hbr⟩) ho
          rw [BVH.bbox] at hcont
          exact hbx (aabbHit_mono hcont hcons)
      rw [worldHit_none_of_all _ this]

/-! ### Box-union algebra for the construction -/

theorem surroundingBox_left_comm (a b c : AABB) :
    AABB.surroundingBox a (AABB.surroundingBox b c) =
      AABB.surroundingBox b (AABB.surroundingBox a c) := by
  rw [surroundingBox_assoc, surroundingBox_comm a b, ← surroundingBox_assoc]

theorem listBox_perm {μ : Type} (t0 t1 : ℚ) {l1 l2 : List (Obj μ)} (hp : l1.Perm l2) :
    listBox t0 t1 l1 = listBox t0 t1 l2 := by
  induction hp with
  | nil => rfl
  | cons x hp ih =>
    simp only [listBox, mainBoxOf]
    exact hp.foldl_eq'
      (fun a _ b _ z => by
        simp only [surroundingBox_left_comm (Obj.bbox a t0 t1) (Obj.bbox b t0 t1) z]) _
  | swap x y l =>
    simp only [listBox, mainBoxOf, List.foldl_cons]
    rw [surroundingBox_comm]
  | trans hp1 hp2 ih1 ih2 => exact ih1.trans ih2

theorem foldl_surr_float {μ : Type} (t0 t1 : ℚ) (cs : List (Obj μ)) :
    ∀ (X B : AABB),
    cs.foldl (fun acc ob => AABB.surroundingBox (ob.bbox t0 t1) acc) (AABB.surroundingBox B X) =
      AABB.surroundingBox (cs.foldl (fun acc ob => AABB.surroundingBox (ob.bbox t0 t1) acc) B) X := by
  induction cs with
  | nil => intro X B; rfl
  | cons d cs ih =>
    intro X B
    rw [List.foldl_cons, List.foldl_cons, surroundingBox_assoc, ih]

theorem listBox_append {μ : Type} (t0 t1 : ℚ) {l1 l2 : List (Obj μ)}
    (h1 : l1 ≠ []) (h2 : l2 ≠ []) :
    listBox t0 t1 (l1 ++ l2) =
      AABB.surroundingBox (listBox t0 t1 l2) (listBox t0 t1 l1) := by
  obtain ⟨o1, r1, rfl⟩ : ∃ o r, l1 = o :: r := by
    cases l1 with | nil => exact absurd rfl h1 | cons a b => exact ⟨a, b, rfl⟩
  obtain ⟨o2, r2, rfl⟩ : ∃ o r, l2 = o :: r := by
    cases l2 with | nil => exact absurd rfl h2 | cons a b => exact ⟨a, b, rfl⟩
  simp only [listBox, mainBoxOf, List.cons_append, List.foldl_cons, List.foldl_append]
  exact foldl_surr_float t0 t1 r2 _ _

/-! ### Invariants of `BVH::new` -/

theorem take_one_headD {α : Type} {l : List α} (h : l ≠ []) (d : α) :
    l.take 1 = [l.headD d] := by
  cases l with
  | nil => exact absurd rfl h
  | cons a l => rfl

theorem eq_headD_of_length_one {α : Type} {l : List α} (h : l.length = 1) (d : α) :
    l = [l.headD d] := by
  cases l with
  | nil => simp at h
  | cons a l =>
    have h0 : l.length = 0 := by
      simp only [List.length_cons] at h
      omega
    rw [List.length_eq_zero] at h0
    subst h0
    rfl

theorem mkLeaf_props {μ : Type} (t0 t1 : ℚ) (o : Obj μ) :
    (mkLeaf t0 t1 o).leafObjs = [o] ∧ (mkLeaf t0 t1 o).size = 1 ∧
    (mkLeaf t0 t1 o).bbox = listBox t0 t1 [o] ∧ BoxesOK t0 t1 (mkLeaf t0 t1 o) ∧
    SizesOK (mkLeaf t0 t1 o) := by
  refine ⟨rfl, rfl, rfl, ?_, ?_⟩
  · show (o.bbox t0 t1) = o.bbox t0 t1
    rfl
  · show (1 : ℕ) = 1
    rfl

theorem headD_mem {α : Type} {l : List α} (h : l ≠ []) (d : α) : l.headD d ∈ l := by
  cases l with
  | nil => exact absurd rfl h
  | cons a t => simp [List.headD]

theorem headD_cons_drop {α : Type} {l : List α} (h : l ≠ []) (d : α) :
    l.headD d :: l.drop 1 = l := by
  cases l with
  | nil => exact absurd rfl h
  | cons a t => rfl

theorem two_headD_ext {α : Type} {l : List α} (h : l.length = 2) (d : α) :
    [l.headD d, (l.drop 1).headD d] = l := by
  cases l with
  | nil => simp at h
  | cons a t =>
    cases t with
    | nil => simp at h
    | cons b t2 =>
      cases t2 with
      | nil => rfl
      | cons c t3 => simp at h

theorem three_headD_ext {α : Type} {l : List α} (h : l.length = 3) (d : α) :
    [l.headD d, (l.drop 1).headD d, (l.drop 2).headD d] = l := by
  cases l with
  | nil => simp at h
  | cons a t =>
    cases t with
    | nil => simp at h
    | cons b t2 =>
      cases t2 with
      | nil => simp at h
      | cons c t3 =>
        cases t3 with
        | nil => rfl
        | cons e t4 => simp at h

theorem foldl_surr_contains_init {μ : Type} (t0 t1 : ℚ) (l : List (Obj μ)) :
    ∀ init : AABB,
      contains (l.foldl (fun acc ob => AABB.surroundingBox (ob.bbox t0 t1) acc) init) init := by
  induction l with
  | nil =>
    intro init
    exact contains_refl _
  | cons b bs ih =>
    intro init
    rw [List.foldl_cons]
    exact contains_trans (ih _) (contains_surr_right _ _)

/-- The whole-list union box contains each member's box. -/
theorem listBox_contains_mem {μ : Type} (t0 t1 : ℚ) {l : List (Obj μ)} {o : Obj μ}
    (ho : o ∈ l) : contains (listBox t0 t1 l) (o.bbox t0 t1) := by
  obtain ⟨s1, s2, rfl⟩ := List.append_of_mem ho
  rw [listBox_perm t0 t1 (List.perm_middle : (s1 ++ o :: s2).Perm (o :: (s1 ++ s2)))]
  show contains (mainBoxOf t0 t1 o (s1 ++ s2)) _
  exact foldl_surr_contains_init t0 t1 _ _

theorem leafObjs_length_of_sizesOK {μ : Type} {b : BVH μ} (h : SizesOK b) :
    b.leafObjs.length = b.size := by
  induction b with
  | leaf bbox sz o =>
    have h1 : sz = 1 := h
    rw [show (BVH.leaf bbox sz o).leafObjs = [o] from rfl,
      show (BVH.leaf bbox sz o).size = sz from rfl, h1]
    rfl
  | node bbox sz l r ihl ihr =>
    obtain ⟨hs, hl, hr⟩ := h
    rw [show (BVH.node bbox sz l r).leafObjs = l.leafObjs ++ r.leafObjs from rfl,
      show (BVH.node bbox sz l r).size = sz from rfl, List.length_append,
      ihl hl, ihr hr, hs]

/-- The structural facts about `inner` at count `n + 2` over any vector the
count fits into: every leaf object is drawn from the input vector, the size
is the count, the node's box is the union over the **whole** vector, the
boxes are conservative down the tree, and the sizes add up. -/
theorem bvhInner_props {μ : Type} (t0 t1 : ℚ) :
    ∀ (n : ℕ) (objs : List (Obj μ)), n + 2 ≤ objs.length →
      (∀ o ∈ (bvhInner t0 t1 (n + 2) objs).leafObjs, o ∈ objs) ∧
      (bvhInner t0 t1 (n + 2) objs).size = n + 2 ∧
      (bvhInner t0 t1 (n + 2) objs).bbox = listBox t0 t1 objs ∧
      BoxesOK t0 t1 (bvhInner t0 t1 (n + 2) objs) ∧
      SizesOK (bvhInner t0 t1 (n + 2) objs) := by
  intro n
  induction n using Nat.strong_induction_on with
  | _ n ih =>
    intro objs hlen
    have hk_le : bvhSplitIdx t0 t1 objs (n + 2) ≤ n := bvhSplitIdx_le t0 t1 objs n
    have hslen : (bvhSorted t0 t1 objs).length = objs.length := bvhSorted_length t0 t1 objs
    have hsperm := bvhSorted_perm t0 t1 objs
    have hsne : bvhSorted t0 t1 objs ≠ [] := by
      intro h
      rw [h] at hslen
      simp only [List.length_nil] at hslen
      omega
    have hdne : (bvhSorted t0 t1 objs).drop (bvhSplitIdx t0 t1 objs (n + 2) + 1) ≠ [] := by
      intro h
      have hh := congrArg List.length h
      rw [List.length_drop, hslen] at hh
      simp only [List.length_nil] at hh
      omega
    have htne : (bvhSorted t0 t1 objs).take (bvhSplitIdx t0 t1 objs (n + 2) + 1) ≠ [] := by
      intro h
      have hh := congrArg List.length h
      rw [List.length_take, hslen] at hh
      simp only [List.length_nil] at hh
      omega
    have hdropmem : ∀ o ∈ (bvhSorted t0 t1 objs).drop (bvhSplitIdx t0 t1 objs (n + 2) + 1),
        o ∈ objs := by
      intro o ho
      exact hsperm.mem_iff.mp (List.mem_of_mem_drop ho)
    have hleft : ∀ L, L = (if bvhSplitIdx t0 t1 objs (n + 2) = 0 then
          mkLeaf t0 t1 ((bvhSorted t0 t1 objs).headD (junkObj μ))
        else
          bvhInner t0 t1 (bvhSplitIdx t0 t1 objs (n + 2) + 1) (bvhSorted t0 t1 objs)) →
        (∀ o ∈ L.leafObjs, o ∈ objs) ∧
        L.size = bvhSplitIdx t0 t1 objs (n + 2) + 1 ∧
        contains (listBox t0 t1 objs) L.bbox ∧
        BoxesOK t0 t1 L ∧ SizesOK L := by
      intro L hL
      by_cases hk0 : bvhSplitIdx t0 t1 objs (n + 2) = 0
      · rw [if_pos hk0] at hL
        subst hL
        obtain ⟨hl, hs, hbb, hbo, hsz⟩ :=
          mkLeaf_props t0 t1 ((bvhSorted t0 t1 objs).headD (junkObj μ))
        have hmem : (bvhSorted t0 t1 objs).headD (junkObj μ) ∈ objs :=
          hsperm.mem_iff.mp (headD_mem hsne (junkObj μ))
        refine ⟨?_, by rw [hs, hk0], ?_, hbo, hsz⟩
        · intro o ho
          rw [hl, List.mem_singleton] at ho
          subst ho
          exact hmem
        · rw [hbb]
          rw [show listBox t0 t1 [(bvhSorted t0 t1 objs).headD (junkObj μ)] =
            ((bvhSorted t0 t1 objs).headD (junkObj μ)).bbox t0 t1 from rfl]
          exact listBox_contains_mem t0 t1 hmem
      · rw [if_neg hk0] at hL
        subst hL
        have hk1 : 1 ≤ bvhSplitIdx t0 t1 objs (n + 2) := Nat.one_le_iff_ne_zero.mpr hk0
        have hc : bvhSplitIdx t0 t1 objs (n + 2) + 1 =
            (bvhSplitIdx t0 t1 objs (n + 2) - 1) + 2 := by omega
        rw [hc]
        have hlt : bvhSplitIdx t0 t1 objs (n + 2) - 1 < n := by omega
        have hlen2 : (bvhSplitIdx t0 t1 objs (n + 2) - 1) + 2 ≤
            (bvhSorted t0 t1 objs).length := by
          rw [hslen]
          omega
        obtain ⟨hmem2, hsz2, hbb2, hbo2, hszok2⟩ := ih _ hlt _ hlen2
        refine ⟨?_, by rw [hsz2], ?_, hbo2, hszok2⟩
        · intro o ho
          exact hsperm.mem_iff.mp (hmem2 o ho)
        · rw [hbb2, listBox_perm t0 t1 hsperm]
          exact contains_refl _
    have hright : ∀ R, R = (if bvhSplitIdx t0 t1 objs (n + 2) = n then
          mkLeaf t0 t1 (((bvhSorted t0 t1 objs).drop
            (bvhSplitIdx t0 t1 objs (n + 2) + 1)).headD (junkObj μ))
        else
          bvhInner t0 t1 (n + 1 - bvhSplitIdx t0 t1 objs (n + 2))
            ((bvhSorted t0 t1 objs).drop (bvhSplitIdx t0 t1 objs (n + 2) + 1))) →
        (∀ o ∈ R.leafObjs, o ∈ objs) ∧
        R.size = n + 1 - bvhSplitIdx t0 t1 objs (n + 2) ∧
        contains (listBox t0 t1 objs) R.bbox ∧
        BoxesOK t0 t1 R ∧ SizesOK R := by
      intro R hR
      have hcontd : contains (listBox t0 t1 objs)
          (listBox t0 t1 ((bvhSorted t0 t1 objs).drop
            (bvhSplitIdx t0 t1 objs (n + 2) + 1))) := by
        rw [← listBox_perm t0 t1 hsperm]
        conv_lhs => rw [← List.take_append_drop (bvhSplitIdx t0 t1 objs (n + 2) + 1)
          (bvhSorted t0 t1 objs)]
        rw [listBox_append t0 t1 htne hdne]
        exact contains_surr_left _ _
      by_cases hkn : bvhSplitIdx t0 t1 objs (n + 2) = n
      · rw [if_pos hkn] at hR
        subst hR
        obtain ⟨hl, hs, hbb, hbo, hsz⟩ := mkLeaf_props t0 t1
          (((bvhSorted t0 t1 objs).drop (bvhSplitIdx t0 t1 objs (n + 2) + 1)).headD (junkObj μ))
        have hmem : ((bvhSorted t0 t1 objs).drop
            (bvhSplitIdx t0 t1 objs (n + 2) + 1)).headD (junkObj μ) ∈ objs :=
          hdropmem _ (headD_mem hdne (junkObj μ))
        refine ⟨?_, by rw [hs, hkn]; omega, ?_, hbo, hsz⟩
        · intro o ho
          rw [hl, List.mem_singleton] at ho
          subst ho
          exact hmem
        · rw [hbb]
          rw [show listBox t0 t1 [((bvhSorted t0 t1 objs).drop
              (bvhSplitIdx t0 t1 objs (n + 2) + 1)).headD (junkObj μ)] =
            (((bvhSorted t0 t1 objs).drop
              (bvhSplitIdx t0 t1 objs (n + 2) + 1)).headD (junkObj μ)).bbox t0 t1 from rfl]
          exact listBox_contains_mem t0 t1 hmem
      · rw [if_neg hkn] at hR
        subst hR
        have hc : n + 1 - bvhSplitIdx t0 t1 objs (n + 2) =
            (n - 1 - bvhSplitIdx t0 t1 objs (n + 2)) + 2 := by omega
        rw [hc]
        have hlt : n - 1 - bvhSplitIdx t0 t1 objs (n + 2) < n := by omega
        have hlen2 : (n - 1 - bvhSplitIdx t0 t1 objs (n + 2)) + 2 ≤
            ((bvhSorted t0 t1 objs).drop (bvhSplitIdx t0 t1 objs (n + 2) + 1)).length := by
          rw [List.length_drop, hslen]
          omega
        obtain ⟨hmem2, hsz2, hbb2, hbo2, hszok2⟩ := ih _ hlt _ hlen2
        refine ⟨?_, by rw [hsz2], ?_, hbo2, hszok2⟩
        · intro o ho
          exact hdropmem _ (hmem2 o ho)
        · rw [hbb2]
          exact hcontd
    obtain ⟨hLm, hLs, hLb, hLbo, hLsz⟩ := hleft _ rfl
    obtain ⟨hRm, hRs, hRb, hRbo, hRsz⟩ := hright _ rfl
    rw [bvhInner]
    refine ⟨?_, ?_, ?_, ?_, ?_⟩
    · show ∀ o ∈ (_ ++ _ : List (Obj μ)), o ∈ objs
      intro o ho
      rcases List.mem_append.mp ho with h | h
      · exact hLm o h
      · exact hRm o h
    · show _ + _ = n + 2
      rw [hLs, hRs]
      omega
    · show listBox t0 t1 objs = _
      rfl
    · exact show contains _ _ ∧ contains _ _ ∧ BoxesOK t0 t1 _ ∧ BoxesOK t0 t1 _ from
        ⟨hLb, hRb, hLbo, hRbo⟩
    · exact show _ = _ + _ ∧ SizesOK _ ∧ SizesOK _ from ⟨rfl, hLsz, hRsz⟩

/-- The combined structural facts about `BVH::new`. -/
theorem bvhBuild_props {μ : Type} {objs : List (Obj μ)} {t0 t1 : ℚ} {b : BVH μ}
    (h : bvhBuild objs t0 t1 = some b) :
    (∀ o ∈ b.leafObjs, o ∈ objs) ∧ b.size = objs.length ∧ BoxesOK t0 t1 b ∧ SizesOK b := by
  match objs, h with
  | [o], h =>
    rw [show bvhBuild [o] t0 t1 = some (mkLeaf t0 t1 o) from rfl, Option.some_inj] at h
    subst h
    obtain ⟨hl, hs, _, hbo, hsz⟩ := mkLeaf_props t0 t1 o
    refine ⟨?_, by rw [hs]; rfl, hbo, hsz⟩
    intro o2 ho
    rw [hl, List.mem_singleton] at ho
    simp [ho]
  | o1 :: o2 :: rest, h =>
    rw [show bvhBuild (o1 :: o2 :: rest) t0 t1 =
      some (bvhInner t0 t1 (o1 :: o2 :: rest).length (o1 :: o2 :: rest)) from rfl,
      Option.some_inj] at h
    subst h
    have hlen : (o1 :: o2 :: rest).length = rest.length + 2 := by simp
    rw [hlen]
    obtain ⟨hm, hs, _, hbo, hsz⟩ :=
      bvhInner_props t0 t1 rest.length (o1 :: o2 :: rest) (by simp)
    refine ⟨hm, by rw [hs], hbo, hsz⟩

theorem minSahIdx_len2 {boxes : List AABB} (h : boxes.length = 2) :
    minSahIdx boxes = 0 := by
  simp only [minSahIdx, h]
  rw [show List.range (2 - 1) = [0] from rfl]
  simp only [List.map_cons, List.map_nil]
  rfl

/-- `min_sah_idx` at count `2` is always `0`: the SAH loop runs for `i = 0`
only and the first cost replaces the sentinel. -/
theorem bvhSplitIdx_two {μ : Type} (t0 t1 : ℚ) (objs : List (Obj μ)) (h : 2 ≤ objs.length) :
    bvhSplitIdx t0 t1 objs 2 = 0 := by
  unfold bvhSplitIdx
  refine minSahIdx_len2 ?_
  rw [List.length_map, List.length_take, bvhSorted_length]
  omega

/-- `inner` at count `2`: both children are leaves of the first two sorted
objects, and the node box is the whole-vector union. -/
theorem bvhInner_two {μ : Type} (t0 t1 : ℚ) (objs : List (Obj μ)) (h : 2 ≤ objs.length) :
    bvhInner t0 t1 2 objs =
      BVH.node (listBox t0 t1 objs) 2
        (mkLeaf t0 t1 ((bvhSorted t0 t1 objs).headD (junkObj μ)))
        (mkLeaf t0 t1 (((bvhSorted t0 t1 objs).drop 1).headD (junkObj μ))) := by
  rw [show (2 : ℕ) = 0 + 2 from rfl, bvhInner]
  rw [bvhSplitIdx_two t0 t1 objs h]
  rfl

theorem bvhInner_two_leafObjs {μ : Type} (t0 t1 : ℚ) (objs : List (Obj μ))
    (h : objs.length = 2) :
    (bvhInner t0 t1 2 objs).leafObjs = bvhSorted t0 t1 objs := by
  rw [bvhInner_two t0 t1 objs (by omega)]
  have hslen : (bvhSorted t0 t1 objs).length = 2 := by rw [bvhSorted_length, h]
  exact two_headD_ext hslen (junkObj μ)

theorem bvhAxis_eq_listBox {μ : Type} (t0 t1 : ℚ) (objs : List (Obj μ)) (h : objs ≠ []) :
    bvhAxis t0 t1 objs = (listBox t0 t1 objs).longestAxis := by
  cases objs with
  | nil => exact absurd rfl h
  | cons o rest => rfl

/-- Re-sorting an already sorted vector is the identity: the recursion at a
left child re-derives the same axis (the union box of the same multiset) and
re-sorts an already sorted vector. -/
theorem bvhSorted_idem {μ : Type} (t0 t1 : ℚ) (objs : List (Obj μ)) (h : objs ≠ []) :
    bvhSorted t0 t1 (bvhSorted t0 t1 objs) = bvhSorted t0 t1 objs := by
  have hne : bvhSorted t0 t1 objs ≠ [] := by
    intro hh
    have hl := bvhSorted_length t0 t1 objs
    rw [hh] at hl
    cases objs with
    | nil => exact h rfl
    | cons a t => simp at hl
  have haxis : bvhAxis t0 t1 (bvhSorted t0 t1 objs) = bvhAxis t0 t1 objs := by
    rw [bvhAxis_eq_listBox t0 t1 _ hne, bvhAxis_eq_listBox t0 t1 _ h,
      listBox_perm t0 t1 (bvhSorted_perm t0 t1 objs)]
  rw [show bvhSorted t0 t1 (bvhSorted t0 t1 objs) =
    (bvhSorted t0 t1 objs).insertionSort
      (fun a b => sortKey (bvhAxis t0 t1 (bvhSorted t0 t1 objs)) a ≤
        sortKey (bvhAxis t0 t1 (bvhSorted t0 t1 objs)) b) from rfl]
  simp only [haxis]
  refine List.Sorted.insertionSort_eq ?_
  rw [show bvhSorted t0 t1 objs = objs.insertionSort
    (fun a b => sortKey (bvhAxis t0 t1 objs) a ≤ sortKey (bvhAxis t0 t1 objs) b) from rfl]
  haveI h1 : IsTotal (Obj μ)
      (fun a b => sortKey (bvhAxis t0 t1 objs) a ≤ sortKey (bvhAxis t0 t1 objs) b) :=
    ⟨fun a b => le_total _ _⟩
  haveI h2 : IsTrans (Obj μ)
      (fun a b => sortKey (bvhAxis t0 t1 objs) a ≤ sortKey (bvhAxis t0 t1 objs) b) :=
    ⟨fun a b c hab hbc => le_trans hab hbc⟩
  exact List.sorted_insertionSort _ objs

/-- `inner` at count `3`: the leaves are exactly a permutation of the input.
(The count-only recursion is benign here: the left child re-sorts the same
whole vector by the same axis.) -/
theorem bvhInner_three_leafObjs {μ : Type} (t0 t1 : ℚ) (objs : List (Obj μ))
    (h : objs.length = 3) :
    (bvhInner t0 t1 3 objs).leafObjs.Perm objs := by
  have hne : objs ≠ [] := by
    intro hh
    rw [hh] at h
    simp at h
  have hslen : (bvhSorted t0 t1 objs).length = 3 := by rw [bvhSorted_length, h]
  have hsne : bvhSorted t0 t1 objs ≠ [] := by
    intro hh
    rw [hh] at hslen
    simp at hslen
  have hsperm := bvhSorted_perm t0 t1 objs
  have hk_le : bvhSplitIdx t0 t1 objs (1 + 2) ≤ 1 := bvhSplitIdx_le t0 t1 objs 1
  rw [show (3 : ℕ) = 1 + 2 from rfl, bvhInner]
  show (((if bvhSplitIdx t0 t1 objs (1 + 2) = 0 then
      mkLeaf t0 t1 ((bvhSorted t0 t1 objs).headD (junkObj μ))
    else
      bvhInner t0 t1 (bvhSplitIdx t0 t1 objs (1 + 2) + 1) (bvhSorted t0 t1 objs)).leafObjs) ++
    ((if bvhSplitIdx t0 t1 objs (1 + 2) = 1 then
      mkLeaf t0 t1 (((bvhSorted t0 t1 objs).drop
        (bvhSplitIdx t0 t1 objs (1 + 2) + 1)).headD (junkObj μ))
    else
      bvhInner t0 t1 (1 + 1 - bvhSplitIdx t0 t1 objs (1 + 2))
        ((bvhSorted t0 t1 objs).drop (bvhSplitIdx t0 t1 objs (1 + 2) + 1))).leafObjs)).Perm objs
  by_cases hk0 : bvhSplitIdx t0 t1 objs (1 + 2) = 0
  · rw [hk0]
    rw [if_pos rfl, if_neg (by omega)]
    have hd1len : ((bvhSorted t0 t1 objs).drop (0 + 1)).length = 2 := by
      rw [List.length_drop, hslen]
    rw [show (1 + 1 - 0 : ℕ) = 2 from rfl]
    rw [bvhInner_two_leafObjs t0 t1 _ hd1len]
    show ((bvhSorted t0 t1 objs).headD (junkObj μ) ::
      bvhSorted t0 t1 ((bvhSorted t0 t1 objs).drop (0 + 1))).Perm objs
    refine List.Perm.trans ?_ hsperm
    refine List.Perm.trans (List.Perm.cons _ (bvhSorted_perm t0 t1 _)) ?_
    rw [show ((0 : ℕ) + 1) = 1 from rfl, headD_cons_drop hsne]
  · have hk1 : bvhSplitIdx t0 t1 objs (1 + 2) = 1 := by omega
    rw [hk1]
    rw [if_neg (by omega), if_pos rfl]
    rw [show (1 + 1 : ℕ) = 2 from rfl]
    rw [bvhInner_two t0 t1 (bvhSorted t0 t1 objs) (by rw [hslen]; omega)]
    rw [bvhSorted_idem t0 t1 objs hne]
    show ([(bvhSorted t0 t1 objs).headD (junkObj μ),
        ((bvhSorted t0 t1 objs).drop 1).headD (junkObj μ)] ++
      [((bvhSorted t0 t1 objs).drop (1 + 1)).headD (junkObj μ)]).Perm objs
    rw [show ((1 : ℕ) + 1) = 2 from rfl]
    rw [show ([(bvhSorted t0 t1 objs).headD (junkObj μ),
        ((bvhSorted t0 t1 objs).drop 1).headD (junkObj μ)] ++
      [((bvhSorted t0 t1 objs).drop 2).headD (junkObj μ)]) =
      [(bvhSorted t0 t1 objs).headD (junkObj μ),
        ((bvhSorted t0 t1 objs).drop 1).headD (junkObj μ),
        ((bvhSorted t0 t1 objs).drop 2).headD (junkObj μ)] from rfl]
    rw [three_headD_ext hslen (junkObj μ)]
    exact hsperm

/-- The leaves of a built tree of at most three objects are exactly a
permutation of the input list. -/
theorem bvhBuild_leafObjs_perm_le3 {μ : Type} {objs : List (Obj μ)} {t0 t1 : ℚ} {b : BVH μ}
    (hb : bvhBuild objs t0 t1 = some b) (hlen : objs.length ≤ 3) :
    b.leafObjs.Perm objs := by
  match objs, hb with
  | [], hb => exact Option.noConfusion hb
  | [o], hb =>
    rw [show bvhBuild [o] t0 t1 = some (mkLeaf t0 t1 o) from rfl, Option.some_inj] at hb
    subst hb
    exact List.Perm.refl [o]
  | [o1, o2], hb =>
    rw [show bvhBuild [o1, o2] t0 t1 = some (bvhInner t0 t1 2 [o1, o2]) from rfl,
      Option.some_inj] at hb
    subst hb
    rw [bvhInner_two_leafObjs t0 t1 [o1, o2] rfl]
    exact bvhSorted_perm t0 t1 [o1, o2]
  | o1 :: o2 :: o3 :: rest, hb =>
    have hr : rest = [] := by
      simp only [List.length_cons] at hlen
      rw [← List.length_eq_zero]
      omega
    subst hr
    rw [show bvhBuild [o1, o2, o3] t0 t1 = some (bvhInner t0 t1 3 [o1, o2, o3]) from rfl,
      Option.some_inj] at hb
    subst hb
    exact bvhInner_three_leafObjs t0 t1 [o1, o2, o3] rfl

/-! ### The scan result under permutations of the object list -/

theorem foldl_minStep_map_t {μ : Type} (l : List (Option (HitRecord μ))) :
    ∀ acc, (l.foldl minStep acc).map (fun h => h.t) =
      l.foldl (fun a h =>
        match a, h with
        | none, none => none
        | none, some b => some b.t
        | some x, none => some x
        | some x, some b => some (Min.min x b.t)) (acc.map (fun h => h.t)) := by
  induction l with
  | nil => intro acc; rfl
  | cons o l ih =>
    intro acc
    rw [List.foldl_cons, List.foldl_cons, ih]
    congr 1
    cases acc with
    | none => cases o <;> rfl
    | some a =>
      cases o with
      | none => rfl
      | some b =>
        simp only [minStep, Option.map_some']
        by_cases hlt : b.t < a.t
        · rw [if_pos hlt]
          simp only [Option.map_some']
          congr 1
          rw [min_comm]
          rw [min_eq_left (le_of_lt hlt)]
        · rw [if_neg hlt]
          simp only [Option.map_some']
          congr 1
          push_neg at hlt
          rw [min_eq_left hlt]

theorem tfold_perm {μ : Type} {l1 l2 : List (Option (HitRecord μ))} (hp : l1.Perm l2) :
    l1.foldl (fun a h =>
        match a, h with
        | none, none => none
        | none, some b => some b.t
        | some x, none => some x
        | some x, some b => some (Min.min x b.t)) none =
      l2.foldl (fun a h =>
        match a, h with
        | none, none => none
        | none, some b => some b.t
        | some x, none => some x
        | some x, some b => some (Min.min x b.t)) none := by
  refine hp.foldl_eq' ?_ none
  intro x _ y _ z
  cases z <;> cases x <;> cases y <;> simp only []
  · rw [min_comm]
  · rw [min_assoc, min_comm (HitRecord.t _), ← min_assoc]

/-- The `t` of the scan result is permutation-invariant. -/
theorem minFirst_map_t_perm {μ : Type} {l1 l2 : List (Option (HitRecord μ))}
    (hp : l1.Perm l2) :
    (minFirst l1).map (fun h => h.t) = (minFirst l2).map (fun h => h.t) := by
  unfold minFirst
  rw [foldl_minStep_map_t, foldl_minStep_map_t]
  exact tfold_perm hp

theorem foldl_minStep_mem {μ : Type} (l : List (Option (HitRecord μ))) :
    ∀ acc h, l.foldl minStep acc = some h → acc = some h ∨ some h ∈ l := by
  induction l with
  | nil => intro acc h hh; exact Or.inl hh
  | cons o l ih =>
    intro acc h hh
    rw [List.foldl_cons] at hh
    rcases ih _ h hh with hcase | hcase
    · cases acc with
      | none =>
        cases o with
        | none => exact Or.inl hcase
        | some b =>
          simp only [minStep] at hcase
          exact Or.inr (by simp [hcase])
      | some a =>
        cases o with
        | none => exact Or.inl hcase
        | some b =>
          simp only [minStep] at hcase
          by_cases hlt : b.t < a.t
          · rw [if_pos hlt] at hcase
            exact Or.inr (by simp [hcase])
          · rw [if_neg hlt] at hcase
            exact Or.inl hcase
    · exact Or.inr (by simp [hcase])

theorem foldl_minStep_le {μ : Type} (l : List (Option (HitRecord μ))) :
    ∀ acc h, l.foldl minStep acc = some h →
      (∀ a, acc = some a → h.t ≤ a.t) ∧ (∀ b, some b ∈ l → h.t ≤ b.t) := by
  induction l with
  | nil =>
    intro acc h hh
    rw [List.foldl_nil] at hh
    refine ⟨fun a ha => ?_, fun b hb => absurd hb (by simp)⟩
    rw [hh] at ha
    cases ha
    exact le_refl _
  | cons o l ih =>
    intro acc h hh
    rw [List.foldl_cons] at hh
    obtain ⟨hacc, hrest⟩ := ih _ h hh
    have hstep : ∀ c, minStep acc o = some c → h.t ≤ c.t := fun c hc => hacc c hc
    constructor
    · intro a ha
      subst ha
      cases o with
      | none => exact hstep a rfl
      | some b =>
        simp only [minStep] at hstep
        by_cases hlt : b.t < a.t
        · have := hstep b (by rw [if_pos hlt])
          exact le_trans this (le_of_lt hlt)
        · exact hstep a (by rw [if_neg hlt])
    · intro b hb
      rcases List.mem_cons.mp hb with hb | hb
      · cases acc with
        | none =>
          rw [← hb] at hstep
          exact hstep b rfl
        | some a =>
          rw [← hb] at hstep
          simp only [minStep] at hstep
          by_cases hlt : b.t < a.t
          · exact hstep b (by rw [if_pos hlt])
          · have := hstep a (by rw [if_neg hlt])
            push_neg at hlt
            exact le_trans this hlt
      · exact hrest b hb

theorem foldl_minStep_isSome_of_mem {μ : Type} (l : List (Option (HitRecord μ))) :
    ∀ acc, ((∃ a, acc = some a) ∨ ∃ b, some b ∈ l) →
      (l.foldl minStep acc).isSome = true := by
  induction l with
  | nil =>
    intro acc h
    rcases h with ⟨a, ha⟩ | ⟨b, hb⟩
    · rw [ha]; rfl
    · exact absurd hb (by simp)
  | cons o l ih =>
    intro acc h
    rw [List.foldl_cons]
    rcases h with ⟨a, ha⟩ | ⟨b, hb⟩
    · subst ha
      refine ih _ (Or.inl ?_)
      cases o with
      | none => exact ⟨a, rfl⟩
      | some b =>
        simp only [minStep]
        by_cases hlt : b.t < a.t
        · exact ⟨b, by rw [if_pos hlt]⟩
        · exact ⟨a, by rw [if_neg hlt]⟩
    · rcases List.mem_cons.mp hb with hb | hb
      · refine ih _ (Or.inl ?_)
        rw [← hb]
        cases acc with
        | none => exact ⟨b, rfl⟩
        | some a =>
          simp only [minStep]
          by_cases hlt : b.t < a.t
          · exact ⟨b, by rw [if_pos hlt]⟩
          · exact ⟨a, by rw [if_neg hlt]⟩
      · exact ih _ (Or.inr ⟨b, hb⟩)

/-- With pairwise-distinct hit parameters, the scan result is fully
permutation-invariant (the nearest hit is unique). -/
theorem minFirst_perm_of_nodup {μ : Type} {l1 l2 : List (Option (HitRecord μ))}
    (hp : l1.Perm l2) (hnd : ((l1.filterMap id).map (fun h => h.t)).Nodup) :
    minFirst l1 = minFirst l2 := by
  cases h1 : minFirst l1 with
  | none =>
    cases h2 : minFirst l2 with
    | none => rfl
    | some b =>
      exfalso
      have hb : some b ∈ l2 := by
        rcases foldl_minStep_mem l2 none b h2 with hc | hc
        · cases hc
        · exact hc
      have hb1 : some b ∈ l1 := hp.symm.subset hb
      have := foldl_minStep_isSome_of_mem l1 none (Or.inr ⟨b, hb1⟩)
      rw [show l1.foldl minStep none = minFirst l1 from rfl, h1] at this
      cases this
  | some a =>
    have ha1 : some a ∈ l1 := by
      rcases foldl_minStep_mem l1 none a h1 with hc | hc
      · cases hc
      · exact hc
    have ha2 : some a ∈ l2 := hp.subset ha1
    cases h2 : minFirst l2 with
    | none =>
      exfalso
      have := foldl_minStep_isSome_of_mem l2 none (Or.inr ⟨a, ha2⟩)
      rw [show l2.foldl minStep none = minFirst l2 from rfl, h2] at this
      cases this
    | some b =>
      have hb2 : some b ∈ l2 := by
        rcases foldl_minStep_mem l2 none b h2 with hc | hc
        · cases hc
        · exact hc
      have hb1 : some b ∈ l1 := hp.symm.subset hb2
      have hab : a.t ≤ b.t := (foldl_minStep_le l1 none a h1).2 b hb1
      have hba : b.t ≤ a.t := (foldl_minStep_le l2 none b h2).2 a ha2
      have ht : a.t = b.t := le_antisymm hab hba
      have hma : a ∈ l1.filterMap id := by
        rw [List.mem_filterMap]
        exact ⟨some a, ha1, rfl⟩
      have hmb : b ∈ l1.filterMap id := by
        rw [List.mem_filterMap]
        exact ⟨some b, hb1, rfl⟩
      have : a = b := List.inj_on_of_nodup_map hnd hma hmb ht
      rw [this]

/-- Claim C1, as provable of the source build: with every object
well-behaved along the ray, the BVH traversal agrees with the naive linear
scan **over the tree's leaf objects**, which are always drawn from the input
list; and for inputs of at most three objects the leaves are exactly a
permutation of the input, so the traversal agrees with `World::hit` over the
input on the hit parameter `t`, and fully (material included) when no two
objects are hit at exactly the same `t`.  For four or more objects the
count-only recursion of `inner` can re-sort a tail whose union box has a
different longest axis and move objects across the split, so no equality
with the input scan is claimed there. -/
theorem bvh_hit_eq_world_hit {μ : Type} {objs : List (Obj μ)} {t0 t1 : ℚ} {r : Ray}
    (hw : ∀ o ∈ objs, WellB t0 t1 r o) {b : BVH μ} (hb : bvhBuild objs t0 t1 = some b)
    (tmin tmax : ℚ) :
    (∀ o ∈ b.leafObjs, o ∈ objs) ∧
    (b.hit r tmin tmax).map (fun h => h.t) =
      (worldHit b.leafObjs r tmin tmax).map (fun h => h.t) ∧
    (objs.length ≤ 3 →
      b.leafObjs.Perm objs ∧
      (b.hit r tmin tmax).map (fun h => h.t) =
        (worldHit objs r tmin tmax).map (fun h => h.t) ∧
      (((objs.filterMap (fun o => o.hit r tmin tmax)).map (fun h => h.t)).Nodup →
        b.hit r tmin tmax = worldHit objs r tmin tmax)) := by
  obtain ⟨hmem, _, hboxes, _⟩ := bvhBuild_props hb
  have hwleaf : ∀ o ∈ b.leafObjs, WellB t0 t1 r o := fun o ho => hw o (hmem o ho)
  have heq := bvhHit_eq_worldHit hboxes hwleaf tmin tmax
  refine ⟨hmem, by rw [heq], ?_⟩
  intro hlen3
  have hperm := bvhBuild_leafObjs_perm_le3 hb hlen3
  have hsleaf : ∀ o ∈ b.leafObjs, SortedCands o r := fun o ho => (hwleaf o ho).1
  have hsobjs : ∀ o ∈ objs, SortedCands o r := fun o ho => (hw o ho).1
  have hchar1 := @worldHit_minFirst μ r tmin tmax b.leafObjs hsleaf
  have hchar2 := @worldHit_minFirst μ r tmin tmax objs hsobjs
  have hmperm : (b.leafObjs.map (fun o => o.hit r tmin tmax)).Perm
      (objs.map (fun o => o.hit r tmin tmax)) := hperm.map _
  refine ⟨hperm, ?_, ?_⟩
  · rw [heq, hchar1, hchar2]
    exact minFirst_map_t_perm hmperm
  · intro hnd
    rw [heq, hchar1, hchar2]
    refine minFirst_perm_of_nodup hmperm ?_
    have hfm : (b.leafObjs.map (fun o => o.hit r tmin tmax)).filterMap id =
        b.leafObjs.filterMap (fun o => o.hit r tmin tmax) := by
      rw [List.filterMap_map]
      rfl
    rw [hfm]
    have hfperm : (b.leafObjs.filterMap (fun o => o.hit r tmin tmax)).Perm
        (objs.filterMap (fun o => o.hit r tmin tmax)) := hperm.filterMap _
    exact ((hfperm.map (fun h => h.t)).nodup_iff).mpr hnd

/-! ### Concrete evaluations for the BVH claims -/

theorem slab_unit {m a b : ℚ} (hm : m ≤ 0) (ha : a < 5) (hb : 5 < b) :
    ∃ a' b', AABB.slabAxis m 10 0 1 (a, b) = some (a', b') ∧ a' < 5 ∧ 5 < b' := by
  have heq : AABB.slabAxis m 10 0 1 (a, b) =
      (if (if (10 : ℚ) < b then 10 else b) ≤ (if m > a then m else a) then none
       else some (if m > a then m else a, if (10 : ℚ) < b then 10 else b)) := by
    unfold AABB.slabAxis
    norm_num
  rw [heq]
  rw [if_neg (by split_ifs <;> linarith)]
  exact ⟨_, _, rfl, by split_ifs <;> linarith, by split_ifs <;> linarith⟩

theorem cube_hit {m tmin tmax : ℚ} (hm : m ≤ 0) (h5a : tmin < 5) (h5b : 5 < tmax) :
    AABB.hit ⟨⟨m, m, m⟩, ⟨10, 10, 10⟩⟩ rayCE tmin tmax = true := by
  unfold AABB.hit
  simp only [rayCE]
  obtain ⟨a1, b1, h1, ha1, hb1⟩ := slab_unit hm h5a h5b
  obtain ⟨a2, b2, h2, ha2, hb2⟩ := slab_unit hm ha1 hb1
  obtain ⟨a3, b3, h3, _, _⟩ := slab_unit hm ha2 hb2
  simp [h1, h2, h3]

theorem objA_hit_eq (tmin tmax : ℚ) :
    objA.hit rayCE tmin tmax =
      (if tmin < 5 ∧ 5 < tmax then some recA else none) := by
  by_cases h1 : tmin < 5 <;> by_cases h2 : (5 : ℚ) < tmax <;>
    simp [Obj.hit, objA, recA, List.find?, h1, h2]

theorem objB_hit_eq (tmin tmax : ℚ) :
    objB.hit rayCE tmin tmax =
      (if tmin < 5 ∧ 5 < tmax then some recB else none) := by
  by_cases h1 : tmin < 5 <;> by_cases h2 : (5 : ℚ) < tmax <;>
    simp [Obj.hit, objB, recB, List.find?, h1, h2]

theorem wellB_objA : WellB 0 1 rayCE objA := by
  constructor
  · unfold SortedCands objA
    simp
  · intro tmin tmax rec h
    rw [objA_hit_eq] at h
    by_cases hc : tmin < 5 ∧ 5 < tmax
    · rw [show objA.bbox 0 1 = ⟨⟨0, 0, 0⟩, ⟨10, 10, 10⟩⟩ from rfl]
      exact cube_hit (le_refl 0) hc.1 hc.2
    · rw [if_neg hc] at h
      cases h

theorem wellB_objB : WellB 0 1 rayCE objB := by
  constructor
  · unfold SortedCands objB
    simp
  · intro tmin tmax rec h
    rw [objB_hit_eq] at h
    by_cases hc : tmin < 5 ∧ 5 < tmax
    · rw [show objB.bbox 0 1 = ⟨⟨-10, -10, -10⟩, ⟨10, 10, 10⟩⟩ from rfl]
      exact cube_hit (by norm_num) hc.1 hc.2
    · rw [if_neg hc] at h
      cases h

theorem mainBox_CE : mainBoxOf 0 1 objA [objB] = ⟨⟨-10, -10, -10⟩, ⟨10, 10, 10⟩⟩ := by
  unfold mainBoxOf
  simp only [List.foldl_cons, List.foldl_nil]
  rw [show (objB.bbox 0 1) = ⟨⟨-10, -10, -10⟩, ⟨10, 10, 10⟩⟩ from rfl,
    show (objA.bbox 0 1) = ⟨⟨0, 0, 0⟩, ⟨10, 10, 10⟩⟩ from rfl]
  unfold AABB.surroundingBox
  norm_num

theorem bvhSorted_CE : bvhSorted 0 1 [objA, objB] = [objB, objA] := by
  have haxis0 : bvhAxis 0 1 [objA, objB] = 0 := by
    rw [show bvhAxis 0 1 [objA, objB] = (mainBoxOf 0 1 objA [objB]).longestAxis from rfl,
      mainBox_CE]
    unfold AABB.longestAxis AABB.axisRange
    norm_num
  unfold bvhSorted
  simp only [haxis0]
  simp only [List.insertionSort, List.orderedInsert]
  have hkey : ¬ sortKey 0 objA ≤ sortKey 0 objB := by
    unfold sortKey objA objB
    norm_num
  rw [if_neg hkey]

theorem bvhInner_CE :
    bvhInner 0 1 2 [objA, objB] =
      BVH.node (mainBoxOf 0 1 objA [objB]) 2 (mkLeaf 0 1 objB) (mkLeaf 0 1 objA) := by
  rw [bvhInner_two 0 1 [objA, objB] (by norm_num)]
  rw [bvhSorted_CE]
  rfl

theorem bvh_hit_CE :
    (bvhInner 0 1 2 [objA, objB]).hit rayCE 0 100 = some recB := by
  rw [bvhInner_CE]
  have hmainhit : AABB.hit (mainBoxOf 0 1 objA [objB]) rayCE 0 100 = true := by
    rw [mainBox_CE]
    exact cube_hit (by norm_num) (by norm_num) (by norm_num)
  have hBhit : AABB.hit (objB.bbox 0 1) rayCE 0 100 = true := by
    rw [show objB.bbox 0 1 = ⟨⟨-10, -10, -10⟩, ⟨10, 10, 10⟩⟩ from rfl]
    exact cube_hit (by norm_num) (by norm_num) (by norm_num)
  have hBobj : objB.hit rayCE 0 100 = some recB := by
    rw [objB_hit_eq]
    norm_num
  have hAhit : AABB.hit (objA.bbox 0 1) rayCE 0 recB.t = true := by
    rw [show objA.bbox 0 1 = ⟨⟨0, 0, 0⟩, ⟨10, 10, 10⟩⟩ from rfl,
      show recB.t = 5 from rfl]
    unfold AABB.hit AABB.slabAxis
    simp only [rayCE]
    norm_num
  have hAobj : objA.hit rayCE 0 recB.t = none := by
    rw [objA_hit_eq, if_neg]
    rw [show recB.t = 5 from rfl]
    norm_num
  simp only [BVH.hit, mkLeaf, hmainhit, hBhit, hBobj, hAhit, hAobj, if_true]

theorem world_hit_CE : worldHit [objA, objB] rayCE 0 100 = some recA := by
  unfold worldHit
  rw [List.foldl_cons, worldF_none, objA_hit_eq, if_pos (by norm_num)]
  rw [List.foldl_cons, worldF_some, List.foldl_nil]
  rw [objB_hit_eq]
  rw [if_neg (by rw [show recA.t = 5 from rfl]; norm_num)]

theorem recA_ne_recB : recA ≠ recB := by
  intro h
  have := congrArg (fun rec => rec.material) h
  simp [recA, recB] at this

/-! ### Claim theorems -/

/-- Claim C1, counterexample: two well-behaved objects hit by the same ray at
exactly the same `t = 5` but carrying different material references.
`World::hit` keeps the first object of the list (`objA`, material `0`);
`BVH::new` sorts `objB` (smaller x-minimum) in front, so `BVH::hit` returns
`objB`'s record (material `1`).  The hit `t` agrees, the material reference
does not, refuting "both return Some with the same t and the same material
reference" as universally stated. -/
theorem claim_C1_counterexample :
    WellB 0 1 rayCE objA ∧ WellB 0 1 rayCE objB ∧
    bvhBuild [objA, objB] 0 1 = some (bvhInner 0 1 2 [objA, objB]) ∧
    (bvhInner 0 1 2 [objA, objB]).hit rayCE 0 100 = some recB ∧
    worldHit [objA, objB] rayCE 0 100 = some recA ∧
    recA.t = recB.t ∧ recA ≠ recB :=
  ⟨wellB_objA, wellB_objB, rfl, bvh_hit_CE, world_hit_CE, rfl, recA_ne_recB⟩

/-- Claim C1 (amended), witness at a concrete one-object list, exercising
the at-most-three-objects branch. -/
theorem claim_C1_witness :
    WellB 0 1 rayCE objA ∧ [objA].length ≤ 3 ∧
    ((mkLeaf 0 1 objA).hit rayCE 0 100).map (fun h => h.t) =
      (worldHit [objA] rayCE 0 100).map (fun h => h.t) := by
  refine ⟨wellB_objA, by norm_num, ?_⟩
  refine ((bvh_hit_eq_world_hit ?_
    (rfl : bvhBuild [objA] 0 1 = some (mkLeaf 0 1 objA)) 0 100).2.2 (by norm_num)).2.1
  intro o ho
  rw [List.mem_singleton] at ho
  rw [ho]
  exact wellB_objA

/-- Claim C8 (amended): in every BVH built by `BVH::new`, each node's `size`
is the sum of its children's, each leaf's `size` is `1`, the root's `size`
is both the number of input objects and the number of leaves, every leaf
object is a member of the input, and each node's `bbox` contains its
children's boxes — but an internal node's `bbox` is **not** in general the
`surrounding_box` of its children's: `inner` folds `main_box` over its
entire vector while its children cover only the first `n` objects of it. -/
theorem claim_C8_bvh_invariants {μ : Type} {objs : List (Obj μ)} {t0 t1 : ℚ} {b : BVH μ}
    (h : bvhBuild objs t0 t1 = some b) :
    SizesOK b ∧ BoxesOK t0 t1 b ∧ b.size = objs.length ∧
    b.size = b.leafObjs.length ∧ (∀ o ∈ b.leafObjs, o ∈ objs) := by
  obtain ⟨hmem, hsize, hbo, hsz⟩ := bvhBuild_props h
  exact ⟨hsz, hbo, hsize, (leafObjs_length_of_sizesOK hsz).symm, hmem⟩

/-- Claim C8, witness on a concrete two-object build. -/
theorem claim_C8_witness :
    SizesOK (bvhInner 0 1 2 [objA, objB]) ∧ BoxesOK 0 1 (bvhInner 0 1 2 [objA, objB]) ∧
    (bvhInner 0 1 2 [objA, objB]).size = [objA, objB].length ∧
    (bvhInner 0 1 2 [objA, objB]).size = (bvhInner 0 1 2 [objA, objB]).leafObjs.length ∧
    (∀ o ∈ (bvhInner 0 1 2 [objA, objB]).leafObjs, o ∈ [objA, objB]) :=
  claim_C8_bvh_invariants rfl

/-- The union box of the three unit cubes. -/
theorem mainBox_U : mainBoxOf 0 1 objU1 [objU2, objU3] = ⟨⟨0, 0, 0⟩, ⟨101, 1, 1⟩⟩ := by
  unfold mainBoxOf
  simp only [List.foldl_cons, List.foldl_nil]
  rw [show objU1.bbox 0 1 = ⟨⟨0, 0, 0⟩, ⟨1, 1, 1⟩⟩ from rfl,
    show objU2.bbox 0 1 = ⟨⟨1, 0, 0⟩, ⟨2, 1, 1⟩⟩ from rfl,
    show objU3.bbox 0 1 = ⟨⟨100, 0, 0⟩, ⟨101, 1, 1⟩⟩ from rfl]
  unfold AABB.surroundingBox
  norm_num

theorem bvhAxis_U : bvhAxis 0 1 [objU1, objU2, objU3] = 0 := by
  rw [show bvhAxis 0 1 [objU1, objU2, objU3] =
    (mainBoxOf 0 1 objU1 [objU2, objU3]).longestAxis from rfl, mainBox_U]
  unfold AABB.longestAxis AABB.axisRange
  norm_num

theorem bvhSorted_U : bvhSorted 0 1 [objU1, objU2, objU3] = [objU1, objU2, objU3] := by
  unfold bvhSorted
  simp only [bvhAxis_U]
  simp only [List.insertionSort, List.orderedInsert]
  rw [if_pos (show sortKey 0 objU1 ≤ sortKey 0 objU2 by unfold sortKey objU1 objU2; norm_num)]

/-- The top-level SAH split of the three cubes is `1`: splitting off the far
cube costs `1 * 10 + 1 * 6 = 16` against `0 * 6 + 2 * 402 = 804`. -/
theorem bvhSplitIdx_U3 : bvhSplitIdx 0 1 [objU1, objU2, objU3] 3 = 1 := by
  unfold bvhSplitIdx
  rw [bvhSorted_U]
  rw [show ([objU1, objU2, objU3].take 3).map (fun o => o.bbox 0 1) =
    [⟨⟨0, 0, 0⟩, ⟨1, 1, 1⟩⟩, ⟨⟨1, 0, 0⟩, ⟨2, 1, 1⟩⟩, ⟨⟨100, 0, 0⟩, ⟨101, 1, 1⟩⟩] from rfl]
  have hpre : prefixUnions [(⟨⟨0, 0, 0⟩, ⟨1, 1, 1⟩⟩ : AABB), ⟨⟨1, 0, 0⟩, ⟨2, 1, 1⟩⟩,
      ⟨⟨100, 0, 0⟩, ⟨101, 1, 1⟩⟩] =
      [⟨⟨0, 0, 0⟩, ⟨1, 1, 1⟩⟩, ⟨⟨0, 0, 0⟩, ⟨2, 1, 1⟩⟩, ⟨⟨0, 0, 0⟩, ⟨101, 1, 1⟩⟩] := by
    unfold prefixUnions
    simp only [List.scanl]
    unfold AABB.surroundingBox
    norm_num
  have hsuf : suffixUnions [(⟨⟨0, 0, 0⟩, ⟨1, 1, 1⟩⟩ : AABB), ⟨⟨1, 0, 0⟩, ⟨2, 1, 1⟩⟩,
      ⟨⟨100, 0, 0⟩, ⟨101, 1, 1⟩⟩] =
      [⟨⟨0, 0, 0⟩, ⟨101, 1, 1⟩⟩, ⟨⟨1, 0, 0⟩, ⟨101, 1, 1⟩⟩, ⟨⟨100, 0, 0⟩, ⟨101, 1, 1⟩⟩] := by
    unfold suffixUnions
    simp only [List.reverse_cons, List.reverse_nil, List.nil_append, List.cons_append,
      List.scanl]
    unfold AABB.surroundingBox
    norm_num
  simp only [minSahIdx]
  rw [hpre, hsuf]
  rw [show List.range (([(⟨⟨0, 0, 0⟩, ⟨1, 1, 1⟩⟩ : AABB), ⟨⟨1, 0, 0⟩, ⟨2, 1, 1⟩⟩,
    ⟨⟨100, 0, 0⟩, ⟨101, 1, 1⟩⟩] : List AABB).length - 1) = [0, 1] from rfl]
  simp only [List.map_cons, List.map_nil, List.getD_cons_zero, List.getD_cons_succ,
    AABB.area, AABB.axisRange]
  norm_num
  show argminQ [804, 16] = 1
  unfold argminQ argminQAux
  rw [if_pos (by norm_num : (16 : ℚ) < 804)]
  rfl

/-- The full three-cube build: the SAH split is `1`, so the left recursion
receives the whole vector with count `2`; its node box is the union of all
three cubes while its leaves hold only the first two. -/
theorem bvhBuild_U :
    bvhBuild [objU1, objU2, objU3] 0 1 =
      some (BVH.node ⟨⟨0, 0, 0⟩, ⟨101, 1, 1⟩⟩ 3
        (BVH.node ⟨⟨0, 0, 0⟩, ⟨101, 1, 1⟩⟩ 2 (mkLeaf 0 1 objU1) (mkLeaf 0 1 objU2))
        (mkLeaf 0 1 objU3)) := by
  rw [show bvhBuild [objU1, objU2, objU3] 0 1 =
    some (bvhInner 0 1 3 [objU1, objU2, objU3]) from rfl]
  rw [show (3 : ℕ) = 1 + 2 from rfl, bvhInner]
  rw [show bvhSplitIdx 0 1 [objU1, objU2, objU3] (1 + 2) = 1 from bvhSplitIdx_U3]
  rw [if_neg (by norm_num), if_pos rfl]
  rw [show (1 + 1 : ℕ) = 2 from rfl]
  rw [bvhInner_two 0 1 (bvhSorted 0 1 [objU1, objU2, objU3]) (by rw [bvhSorted_length]; norm_num)]
  rw [bvhSorted_idem 0 1 [objU1, objU2, objU3] (by simp)]
  rw [bvhSorted_U]
  rw [show listBox 0 1 [objU1, objU2, objU3] = ⟨⟨0, 0, 0⟩, ⟨101, 1, 1⟩⟩ from mainBox_U]
  rfl

/-- Claim C8, counterexample: in the three-cube build the left child is an
internal node whose `bbox` is the union of **all three** cubes' boxes,
`x ∈ [0, 101]`, while the `surrounding_box` of its two leaf children is
`x ∈ [0, 2]`: the claimed per-node `bbox = surrounding_box(children)`
invariant fails. -/
theorem claim_C8_counterexample :
    bvhBuild [objU1, objU2, objU3] 0 1 =
      some (BVH.node ⟨⟨0, 0, 0⟩, ⟨101, 1, 1⟩⟩ 3
        (BVH.node ⟨⟨0, 0, 0⟩, ⟨101, 1, 1⟩⟩ 2 (mkLeaf 0 1 objU1) (mkLeaf 0 1 objU2))
        (mkLeaf 0 1 objU3)) ∧
    ¬ NodesOK (BVH.node (⟨⟨0, 0, 0⟩, ⟨101, 1, 1⟩⟩ : AABB) 3
        (BVH.node ⟨⟨0, 0, 0⟩, ⟨101, 1, 1⟩⟩ 2 (mkLeaf 0 1 objU1) (mkLeaf 0 1 objU2))
        (mkLeaf 0 1 objU3)) := by
  refine ⟨bvhBuild_U, ?_⟩
  intro hno
  obtain ⟨-, -, hleft, -⟩ := hno
  obtain ⟨hbb, -, -, -⟩ := hleft
  rw [show (mkLeaf 0 1 objU1).bbox = ⟨⟨0, 0, 0⟩, ⟨1, 1, 1⟩⟩ from rfl,
    show (mkLeaf 0 1 objU2).bbox = ⟨⟨1, 0, 0⟩, ⟨2, 1, 1⟩⟩ from rfl] at hbb
  unfold AABB.surroundingBox at hbb
  have hx := congrArg (fun bb => bb.max.x) hbb
  norm_num at hx

/-- Claim C9: `BVH::new` of an empty object list fails (panics, embedded as
`none`) and never yields a `BVH` value, and `BVH::new` of a single object is
the leaf holding that object with its `bounding_box(time0, time1)`. -/
theorem claim_C9_bvh_empty_single {μ : Type} (t0 t1 : ℚ) (o : Obj μ) :
    bvhBuild ([] : List (Obj μ)) t0 t1 = none ∧
    bvhBuild [o] t0 t1 = some (BVH.leaf (o.bbox t0 t1) 1 o) :=
  ⟨rfl, rfl⟩

/-- Claim C4, counterexample: a one-member world whose member reports
`pdf_value = 7` everywhere.  The spec's averaging version returns `7`, but
`World`, which does not override the trait defaults, returns `0`, and its
`random` returns `(1,0,0)` rather than the member's sample `(0,1,0)`. -/
theorem claim_C4_counterexample :
    specWorldPdfValue [objP] ⟨0, 0, 0⟩ ⟨1, 0, 0⟩ = 7 ∧
    worldPdfValue [objP] ⟨0, 0, 0⟩ ⟨1, 0, 0⟩ = 0 ∧
    (7 : ℚ) ≠ 0 ∧
    worldRandom [objP] ⟨0, 0, 0⟩ ≠ objP.random ⟨0, 0, 0⟩ := by
  refine ⟨?_, rfl, by norm_num, ?_⟩
  · norm_num [specWorldPdfValue, objP]
  · intro h
    have := congrArg (fun v => v.x) h
    simp [worldRandom, objP] at this

/-- Claim C4 (amended): `impl Hittable for World` overrides neither
`pdf_value` nor `random`, so a `World` used as a light set answers with the
trait defaults — `pdf_value = 0` and `random = (1,0,0)` — for every origin
and direction, regardless of its members. -/
theorem claim_C4_world_pdf_defaults {μ : Type} (objs : List (Obj μ)) (origin v : Vec3) :
    worldPdfValue objs origin v = 0 ∧ worldRandom objs origin = ⟨1, 0, 0⟩ :=
  ⟨rfl, rfl⟩

theorem dot_neg_right (a b : Vec3) : a.dot (-b) = -(a.dot b) := by
  simp [Vec3.dot]
  ring

/-- Claim C7: every record built by `HitRecord::new` has its normal oriented
against the incoming ray (`direction · normal ≤ 0`), with `front_face` true
exactly when the supplied outward normal opposes the ray; and the `FlipFace`
decorator, which only negates `front_face`, preserves the orientation of the
normal for any wrapped object whose candidate records satisfy it. -/
theorem claim_C7_normal_orientation {μ : Type} :
    (∀ (ray : Ray) (t : ℚ) (hitPoint outwardNormal : Vec3) (material : μ) (uv : ℚ × ℚ),
      ray.direction.dot (HitRecord.make ray t hitPoint outwardNormal material uv).normal ≤ 0 ∧
      ((HitRecord.make ray t hitPoint outwardNormal material uv).frontFace = true ↔
        ray.direction.dot outwardNormal < 0)) ∧
    (∀ (o : Obj μ) (r : Ray) (tmin tmax : ℚ),
      (∀ rec ∈ o.cands r, r.direction.dot rec.normal ≤ 0) →
      ∀ rec', flipFaceHit o r tmin tmax = some rec' → r.direction.dot rec'.normal ≤ 0) := by
  constructor
  · intro ray t hitPoint outwardNormal material uv
    by_cases h : ray.direction.dot outwardNormal < 0
    · constructor
      · have hnorm : (HitRecord.make ray t hitPoint outwardNormal material uv).normal =
            outwardNormal := by
          simp [HitRecord.make, h]
        rw [hnorm]
        exact le_of_lt h
      · simp [HitRecord.make, h]
    · constructor
      · have hnorm : (HitRecord.make ray t hitPoint outwardNormal material uv).normal =
            -outwardNormal := by
          simp [HitRecord.make, h]
        rw [hnorm, dot_neg_right]
        push_neg at h
        linarith
      · simp [HitRecord.make, h]
  · intro o r tmin tmax hall rec' h
    unfold flipFaceHit at h
    cases ho : o.hit r tmin tmax with
    | none => rw [ho] at h; cases h
    | some rec =>
      rw [ho] at h
      cases h
      have hmem := (Obj.hit_some ho).1
      exact hall rec hmem

/-- Claim C7, witness: a concrete `HitRecord::new` call, and a concrete
`FlipFace`-wrapped hit whose flipped record keeps `direction · normal ≤ 0`. -/
theorem claim_C7_witness :
    rayCE.direction.dot (HitRecord.make rayCE 5 ⟨5, 5, 5⟩ ⟨0, 0, -1⟩ (0 : ℕ) (0, 0)).normal ≤ 0 ∧
    ((HitRecord.make rayCE 5 ⟨5, 5, 5⟩ ⟨0, 0, -1⟩ (0 : ℕ) (0, 0)).frontFace = true ↔
      rayCE.direction.dot ⟨0, 0, -1⟩ < 0) ∧
    flipFaceHit objF rayCE 0 100 =
      some ⟨⟨5, 5, 5⟩, ⟨0, 0, -1⟩, 5, false, 0, (0, 0)⟩ ∧
    rayCE.direction.dot (⟨⟨5, 5, 5⟩, ⟨0, 0, -1⟩, 5, false, 0, (0, 0)⟩ : HitRecord ℕ).normal ≤ 0 := by
  have hflip : flipFaceHit objF rayCE 0 100 =
      some ⟨⟨5, 5, 5⟩, ⟨0, 0, -1⟩, 5, false, 0, (0, 0)⟩ := by
    unfold flipFaceHit
    have hF : objF.hit rayCE 0 100 = some recF := by
      simp [Obj.hit, objF, recF, List.find?]
      norm_num
    rw [hF]
    rfl
  refine ⟨(claim_C7_normal_orientation.1 rayCE 5 ⟨5, 5, 5⟩ ⟨0, 0, -1⟩ (0 : ℕ) (0, 0)).1,
    (claim_C7_normal_orientation.1 rayCE 5 ⟨5, 5, 5⟩ ⟨0, 0, -1⟩ (0 : ℕ) (0, 0)).2,
    hflip, ?_⟩
  refine claim_C7_normal_orientation.2 objF rayCE 0 100 ?_ _ hflip
  intro rec hrec
  simp [objF] at hrec
  subst hrec
  simp [recF, rayCE, Vec3.dot]

/-- Claim C6, counterexample: a ray exactly tangent to the unit sphere has
discriminant `0`; the spec's reading ("reject discriminant < 0, else take a
root inside `[t_min, t_max]`") predicts the hit `t = 2`, but `Sphere::hit`
requires `discriminant > 0.0` and returns `None`. -/
theorem claim_C6_counterexample :
    claimSphereHitT prZero sphCE rayTan (1/1000) 100 = some 2 ∧
    Sphere.hit prZero sphCE rayTan (1/1000) 100 = none := by
  constructor
  · simp only [claimSphereHitT, sphCE, rayTan, prZero]
    norm_num [Vec3.dot, Vec3.lengthSquared]
  · simp only [Sphere.hit, sphCE, rayTan, prZero]
    norm_num [Vec3.dot, Vec3.lengthSquared]

/-- Claim C6 (amended): `Sphere::hit` returns `None` unless the discriminant
is strictly positive; otherwise it returns the smaller root when that root
lies strictly inside `(t_min, t_max)`, else the larger root when it does,
else `None`.  `MovingSphere::hit` computes the same hit parameter as
`Sphere::hit` on the sphere whose center is interpolated at the ray's time
(their records differ only in the `uv` argument, where `moving_sphere.rs`
line 109 omits the parentheses around the subtraction). -/
theorem claim_C6_sphere_roots {μ : Type} (pr : Prim) (s : Sphere μ) (ms : MovingSphere μ)
    (r : Ray) (tmin tmax : ℚ) :
    ((Sphere.hit pr s r tmin tmax).map (fun h => h.t) =
      (if sphereDisc s r > 0 then
        (if sphereSol1 pr s r < tmax ∧ sphereSol1 pr s r > tmin then some (sphereSol1 pr s r)
         else if sphereSol2 pr s r < tmax ∧ sphereSol2 pr s r > tmin then some (sphereSol2 pr s r)
         else none)
      else none)) ∧
    (MovingSphere.hit pr ms r tmin tmax).map (fun h => h.t) =
      (Sphere.hit pr ⟨ms.center r.time, ms.radius, ms.material⟩ r tmin tmax).map
        (fun h => h.t) := by
  constructor
  · rw [show Sphere.hit pr s r tmin tmax =
      (if sphereDisc s r > 0 then
        match (if sphereSol1 pr s r < tmax ∧ sphereSol1 pr s r > tmin then some (sphereSol1 pr s r)
          else if sphereSol2 pr s r < tmax ∧ sphereSol2 pr s r > tmin then some (sphereSol2 pr s r)
          else none) with
        | some t =>
          some (HitRecord.make r t (r.at t) (Vec3.divs (r.at t - s.center) s.radius) s.material
            (pr.sphereUV (Vec3.divs (r.at t - s.center) s.radius)))
        | none => none
      else none) from rfl]
    by_cases h1 : sphereDisc s r > 0
    · rw [if_pos h1, if_pos h1]
      by_cases h2 : sphereSol1 pr s r < tmax ∧ sphereSol1 pr s r > tmin
      · rw [if_pos h2]
        rfl
      · rw [if_neg h2]
        by_cases h3 : sphereSol2 pr s r < tmax ∧ sphereSol2 pr s r > tmin
        · rw [if_pos h3]
          rfl
        · rw [if_neg h3]
          rfl
    · rw [if_neg h1, if_neg h1]
      rfl
  · rw [show MovingSphere.hit pr ms r tmin tmax =
      (if sphereDisc (⟨ms.center r.time, ms.radius, ms.material⟩ : Sphere μ) r > 0 then
        match (if sphereSol1 pr ⟨ms.center r.time, ms.radius, ms.material⟩ r < tmax ∧
            sphereSol1 pr ⟨ms.center r.time, ms.radius, ms.material⟩ r > tmin then
            some (sphereSol1 pr ⟨ms.center r.time, ms.radius, ms.material⟩ r)
          else if sphereSol2 pr ⟨ms.center r.time, ms.radius, ms.material⟩ r < tmax ∧
            sphereSol2 pr ⟨ms.center r.time, ms.radius, ms.material⟩ r > tmin then
            some (sphereSol2 pr ⟨ms.center r.time, ms.radius, ms.material⟩ r)
          else none) with
        | some t =>
          some (HitRecord.make r t (r.at t)
            (Vec3.divs (r.at t - ms.center r.time) ms.radius) ms.material
            (pr.sphereUV (r.at t - Vec3.divs (ms.center r.time) ms.radius)))
        | none => none
      else none) from rfl]
    rw [show Sphere.hit pr (⟨ms.center r.time, ms.radius, ms.material⟩ : Sphere μ) r tmin tmax =
      (if sphereDisc (⟨ms.center r.time, ms.radius, ms.material⟩ : Sphere μ) r > 0 then
        match (if sphereSol1 pr ⟨ms.center r.time, ms.radius, ms.material⟩ r < tmax ∧
            sphereSol1 pr ⟨ms.center r.time, ms.radius, ms.material⟩ r > tmin then
            some (sphereSol1 pr ⟨ms.center r.time, ms.radius, ms.material⟩ r)
          else if sphereSol2 pr ⟨ms.center r.time, ms.radius, ms.material⟩ r < tmax ∧
            sphereSol2 pr ⟨ms.center r.time, ms.radius, ms.material⟩ r > tmin then
            some (sphereSol2 pr ⟨ms.center r.time, ms.radius, ms.material⟩ r)
          else none) with
        | some t =>
          some (HitRecord.make r t (r.at t)
            (Vec3.divs (r.at t - ms.center r.time) ms.radius) ms.material
            (pr.sphereUV (Vec3.divs (r.at t - ms.center r.time) ms.radius)))
        | none => none
      else none) from rfl]
    by_cases h1 : sphereDisc (⟨ms.center r.time, ms.radius, ms.material⟩ : Sphere μ) r > 0
    · rw [if_pos h1, if_pos h1]
      by_cases h2 : sphereSol1 pr ⟨ms.center r.time, ms.radius, ms.material⟩ r < tmax ∧
          sphereSol1 pr ⟨ms.center r.time, ms.radius, ms.material⟩ r > tmin
      · rw [if_pos h2]
        rfl
      · rw [if_neg h2]
        by_cases h3 : sphereSol2 pr ⟨ms.center r.time, ms.radius, ms.material⟩ r < tmax ∧
            sphereSol2 pr ⟨ms.center r.time, ms.radius, ms.material⟩ r > tmin
        · rw [if_pos h3]
          rfl
        · rw [if_neg h3]
    · rw [if_neg h1, if_neg h1]

/-- A helper for the specular branch of `ray_color`: whichever material
produced a `Specular` outcome has `emitted = vec3!(0.0)`.  `Lambertian`
returns a PDF outcome and `DiffuseLight` returns `None`, so a `Specular`
scatter comes from `Metal`, `Dielectric` or `Isotropic`, none of which
override the emitting default of `material/mod.rs`. -/
theorem emitted_eq_zero_of_specular (pr : Prim) (rng rng2 : List ℚ) (ray : Ray)
    (rec : HitRecord Material) (att : Vec3) (sray : Ray)
    (h : Material.scatter pr rec.material rng ray rec =
      (some ⟨att, ScatterType.specular sray⟩, rng2)) :
    Material.emitted rec.material rec rec.uv rec.hitPoint = Vec3.zero := by
  rcases hm : rec.material with a | ⟨a, f⟩ | ⟨a, ri, d⟩ | e | a
  · simp only [Material.scatter, hm, lambertianScatter] at h
    simp at h
  · simp [Material.emitted, hm]
  · simp [Material.emitted, hm]
  · simp only [Material.scatter, hm] at h
    simp at h
  · simp [Material.emitted, hm]

/-- Claim C10: `Dielectric::scatter` returns `Some` on every incident ray and
hit record, and the outcome is always `ScatterType::Specular`, carrying a ray
from the hit point, at the incident ray's time, whose direction is either the
mirror reflection of the unit incident direction (total internal reflection,
or a Schlick draw) or its refraction. -/
theorem claim_C10_dielectric_always_specular (pr : Prim) (a : Vec3)
    (ri density : ℚ) (rng : List ℚ) (rayIn : Ray) (rec : HitRecord Material) :
    ∃ sc rng2,
      dielectricScatter pr a ri density rng rayIn rec = (some sc, rng2) ∧
      ∃ d, sc.scattered = ScatterType.specular ⟨rec.hitPoint, d, rayIn.time⟩ ∧
        (d = Vec3.reflect (unitVector pr rayIn.direction) rec.normal ∨
         d = refract pr (unitVector pr rayIn.direction) rec.normal
            (if rec.frontFace then 1 / ri else ri)) := by
  simp only [dielectricScatter]
  rcases hdq : drawQ rng with ⟨q, rng1⟩
  split_ifs <;>
    first
      | exact ⟨_, _, rfl, _, rfl, Or.inl rfl⟩
      | exact ⟨_, _, rfl, _, rfl, Or.inr rfl⟩

/-- Claim C2: whenever the scatter of the hit record's material returns a
`Specular` outcome, the value computed by `ray_color` at positive depth
equals `emitted + attenuation * ray_color(specular_ray, depth - 1)` (no PDF
division).  The source's specular branch omits the `emitted` term, but the
equation still holds because every `Specular`-producing material has
`emitted = vec3!(0.0)`. -/
theorem claim_C2_specular_value (pr : Prim) (bg : Vec3) (bvh : BVH Material)
    (lights : Obj Material) (depth : ℕ) (ray : Ray) (rng rng2 : List ℚ)
    (rec : HitRecord Material) (att : Vec3) (sray : Ray)
    (hhit : bvh.hit ray (1/1000) pr.infQ = some rec)
    (hsc : Material.scatter pr rec.material rng ray rec =
      (some ⟨att, ScatterType.specular sray⟩, rng2)) :
    rayColor pr bg bvh lights (depth + 1) ray rng =
      (Material.emitted rec.material rec rec.uv rec.hitPoint +
        Vec3.mulv att (rayColor pr bg bvh lights depth sray rng2).1,
       (rayColor pr bg bvh lights depth sray rng2).2) := by
  have hz := emitted_eq_zero_of_specular pr rng rng2 ray rec att sray hsc
  rw [rayColor, hhit]
  simp only [hsc, hz, Vec3.zero_add']

/-- Claim C2, witness: a fuzzless metal hit; its scatter is `Specular` with
the reflected ray, and the depth-`1` color is `emitted + attenuation *`
the depth-`0` color of the reflected ray. -/
theorem claim_C2_witness :
    bvhM.hit rayM (1/1000) prUnit.infQ = some recM ∧
    Material.scatter prUnit recM.material [] rayM recM =
      (some ⟨⟨2, 3, 4⟩, ScatterType.specular rayCE⟩, []) ∧
    rayColor prUnit ⟨0, 0, 0⟩ bvhM objM 1 rayM [] =
      (Material.emitted recM.material recM recM.uv recM.hitPoint +
        Vec3.mulv ⟨2, 3, 4⟩ (rayColor prUnit ⟨0, 0, 0⟩ bvhM objM 0 rayCE []).1,
       (rayColor prUnit ⟨0, 0, 0⟩ bvhM objM 0 rayCE []).2) := by
  have hhit : bvhM.hit rayM (1/1000) prUnit.infQ = some recM := by
    rw [show bvhM.hit rayM (1/1000) prUnit.infQ =
      (if (AABB.hit ⟨⟨-1000, -1000, -1000⟩, ⟨1000, 1000, 1000⟩⟩ rayM (1/1000) prUnit.infQ)
        then objM.hit rayM (1/1000) prUnit.infQ else none) from rfl]
    have hbox : AABB.hit ⟨⟨-1000, -1000, -1000⟩, ⟨1000, 1000, 1000⟩⟩ rayM (1/1000)
        prUnit.infQ = true := by
      simp only [AABB.hit, AABB.slabAxis, rayM, prUnit]
      norm_num
    rw [hbox, if_pos rfl]
    simp [Obj.hit, objM, recM, List.find?, prUnit]
    norm_num
  have hsc : Material.scatter prUnit recM.material [] rayM recM =
      (some ⟨⟨2, 3, 4⟩, ScatterType.specular rayCE⟩, []) := by
    rw [show recM.material = matM from rfl]
    simp only [Material.scatter, matM, metalScatter, recM, rayM, rayCE, prUnit, unitVector,
      Vec3.length, Vec3.lengthSquared, Vec3.reflect, Vec3.sub, Vec3.smul, Vec3.dot, Vec3.add_def]
    norm_num
  exact ⟨hhit, hsc, claim_C2_specular_value prUnit ⟨0, 0, 0⟩ bvhM objM 0 rayM [] []
    recM ⟨2, 3, 4⟩ rayCE hhit hsc⟩

/-- `sample_pix` at `max_reflection_depth = 0`: every sample's `ray_color`
is `vec3!()`, so the accumulator never moves. -/
theorem samplePix_depth0 (pr : Prim) (bg : Vec3) (bvh : BVH Material) (lights : Obj Material)
    (w h i j : ℕ) :
    ∀ (n : ℕ) (acc : Vec3) (rng : List ℚ),
      (samplePix pr bg bvh lights w h 0 i j n acc rng).1 = acc := by
  intro n
  induction n with
  | zero =>
    intro acc rng
    rfl
  | succ n ih =>
    intro acc rng
    simp only [samplePix, rayColor]
    rw [Vec3.add_zero']
    exact ih acc _

/-- Claim C3 (amended): with `max_reflection_depth = 0` every rendered pixel
is exactly `(0, 0, 0)` — black, not the background color: the `depth == 0`
check at the top of `ray_color` fires on the primary ray itself, before any
intersection test or background lookup, for every scene and background.
(Hypothesis: the abstract `sqrt` is faithful at `0`, the only point where
this run consults it.) -/
theorem claim_C3_depth0_black (pr : Prim) (w h spp : ℕ) (bvh : BVH Material)
    (lights : Obj Material) (bg : Vec3) (rngOf : ℕ → List ℚ)
    (hsq : pr.sqrtQ 0 = 0) :
    ∀ pix ∈ render pr w h spp 0 bvh lights bg rngOf, pix = (0, 0, 0) := by
  intro pix hpix
  simp only [render, List.mem_map] at hpix
  obtain ⟨sp, _, heq⟩ := hpix
  rcases hsp : samplePix pr bg bvh lights w h 0 (sp % w) (h - 1 - sp / w) spp Vec3.zero
    (rngOf sp) with ⟨color, rng'⟩
  have hcolor : color = Vec3.zero := by
    have := samplePix_depth0 pr bg bvh lights w h (sp % w) (h - 1 - sp / w) spp
      Vec3.zero (rngOf sp)
    rw [hsp] at this
    exact this
  rw [hsp] at heq
  subst hcolor
  rw [← heq]
  simp [pixelFinish, Vec3.zero, QF.isNan, QF.mul, QF.sqrtF, hsq, clampF, QF.ltc, QF.gtc,
    QF.castU32]
  norm_num
  decide

/-- Claim C3, witness: a one-pixel depth-`0` render over a nonblack
background whose (first) pixel the claim theorem pins to `(0, 0, 0)`. -/
theorem claim_C3_witness :
    Prim.sqrtQ prId 0 = 0 ∧
    (render prId 1 1 1 0 bvhM objM ⟨1, 1, 1⟩ (fun _ => [])).headD (9, 9, 9) = (0, 0, 0) := by
  refine ⟨rfl, ?_⟩
  have hne : render prId 1 1 1 0 bvhM objM ⟨1, 1, 1⟩ (fun _ => []) ≠ [] := by
    simp [render, List.range_eq_nil]
  have hmem : (render prId 1 1 1 0 bvhM objM ⟨1, 1, 1⟩ (fun _ => [])).headD (9, 9, 9) ∈
      render prId 1 1 1 0 bvhM objM ⟨1, 1, 1⟩ (fun _ => []) := by
    cases hl : render prId 1 1 1 0 bvhM objM ⟨1, 1, 1⟩ (fun _ => []) with
    | nil => exact absurd hl hne
    | cons a t => simp [List.headD]
  exact claim_C3_depth0_black prId 1 1 1 bvhM objM ⟨1, 1, 1⟩ (fun _ => []) rfl _ hmem

/-- Claim C3, counterexample: the depth-`0` one-pixel render of a scene with
background `(1, 1, 1)` is the black pixel `(0, 0, 0)`, while the background
color itself post-processes to `(255, 255, 255)`: the spec's "exactly the
background gradient color" does not hold. -/
theorem claim_C3_counterexample :
    render prId 1 1 1 0 bvhM objM ⟨1, 1, 1⟩ (fun _ => []) = [(0, 0, 0)] ∧
    pixelFinish prId 1 (QF.val 1, QF.val 1, QF.val 1) = (255, 255, 255) ∧
    ((0, 0, 0) : ℕ × ℕ × ℕ) ≠ (255, 255, 255) := by
  refine ⟨?_, ?_, by decide⟩
  · rw [show render prId 1 1 1 0 bvhM objM ⟨1, 1, 1⟩ (fun _ => []) =
      [pixelFinish prId 1 (QF.val (Vec3.zero + Vec3.zero).x, QF.val (Vec3.zero + Vec3.zero).y,
        QF.val (Vec3.zero + Vec3.zero).z)] from rfl]
    simp [pixelFinish, prId, Vec3.zero, QF.isNan, QF.mul, QF.sqrtF, clampF, QF.ltc, QF.gtc,
      QF.castU32]
    norm_num
    decide
  · simp [pixelFinish, prId, QF.mul, QF.sqrtF, QF.isNan, clampF, QF.ltc, QF.gtc, QF.castU32]
    norm_num
    have hfl : Rat.floor (31968 / 125 : ℚ) = 255 := by
      have h2 : ⌊(31968 / 125 : ℚ)⌋ = (255 : ℤ) := by
        rw [Int.floor_eq_iff]
        norm_num
      exact h2
    rw [hfl]
    decide

/-- The 8-bit cast stage of `render`: whatever possibly-NaN channel value
reaches the `clamp`/`* 256`/`as u32` pipeline, the integer that comes out is
at most `255`. -/
theorem castU32_channel_le (x : QF) :
    QF.castU32 (QF.mul (QF.val 256) (clampF x 0 (999/1000))) ≤ 255 := by
  rcases x with _ | q
  · simp [clampF, QF.ltc, QF.gtc, QF.mul, QF.castU32]
  · by_cases h1 : q < 0
    · simp [clampF, QF.ltc, QF.gtc, h1, QF.mul, QF.castU32]
      norm_num
      decide
    · by_cases h2 : q > 999/1000
      · simp [clampF, QF.ltc, QF.gtc, h1, h2, QF.mul, QF.castU32]
        norm_num
        have hfl : Rat.floor (31968 / 125 : ℚ) = 255 := by
          have hf2 : ⌊(31968 / 125 : ℚ)⌋ = (255 : ℤ) := by
            rw [Int.floor_eq_iff]
            norm_num
          exact hf2
        rw [hfl]
      · simp only [clampF, QF.ltc, QF.gtc, QF.mul, QF.castU32, h1, h2, decide_False,
          Bool.false_eq_true, if_false]
        push_neg at h1 h2
        have hge : ¬ (256 * q < 0) := by
          push_neg
          positivity
        rw [if_neg hge]
        have hfl : Rat.floor (256 * q) ≤ 255 := by
          have hlt : ⌊(256 * q : ℚ)⌋ < 256 := by
            rw [Int.floor_lt]
            push_cast
            nlinarith
          have hrfl : Rat.floor (256 * q) = ⌊(256 * q : ℚ)⌋ := rfl
          rw [hrfl]
          omega
        refine le_trans (Nat.min_le_left _ _) ?_
        exact Int.toNat_le.mpr (by exact_mod_cast hfl)

/-- Claim C5: every pixel triple produced by `render` has each channel an
(in ℕ, non-NaN and non-negative by construction) integer at most `255`: NaN
channels are zeroed, the averaged and gamma-corrected value is clamped to
`[0, 0.999]` and scaled by `256`, so the saturating `as u32` cast yields at
most `⌊255.744⌋ = 255`.  (Proved for every scene, not only non-negative-
albedo ones: the clamp stage bounds the channel unconditionally.) -/
theorem claim_C5_pixel_bounds (pr : Prim) (w h spp d : ℕ) (bvh : BVH Material)
    (lights : Obj Material) (bg : Vec3) (rngOf : ℕ → List ℚ) :
    ∀ pix ∈ render pr w h spp d bvh lights bg rngOf,
      pix.1 ≤ 255 ∧ pix.2.1 ≤ 255 ∧ pix.2.2 ≤ 255 := by
  intro pix hpix
  simp only [render, List.mem_map] at hpix
  obtain ⟨sp, _, heq⟩ := hpix
  rw [← heq]
  exact ⟨castU32_channel_le _, castU32_channel_le _, castU32_channel_le _⟩

/-- Claim C5, witness: the channels of the (first) pixel of a concrete
one-pixel render are at most `255`. -/
theorem claim_C5_witness :
    ((render prId 1 1 1 0 bvhM objM ⟨1, 1, 1⟩ (fun _ => [])).headD (9, 9, 9)).1 ≤ 255 ∧
    ((render prId 1 1 1 0 bvhM objM ⟨1, 1, 1⟩ (fun _ => [])).headD (9, 9, 9)).2.1 ≤ 255 ∧
    ((render prId 1 1 1 0 bvhM objM ⟨1, 1, 1⟩ (fun _ => [])).headD (9, 9, 9)).2.2 ≤ 255 := by
  have hne : render prId 1 1 1 0 bvhM objM ⟨1, 1, 1⟩ (fun _ => []) ≠ [] := by
    simp [render, List.range_eq_nil]
  have hmem : (render prId 1 1 1 0 bvhM objM ⟨1, 1, 1⟩ (fun _ => [])).headD (9, 9, 9) ∈
      render prId 1 1 1 0 bvhM objM ⟨1, 1, 1⟩ (fun _ => []) := by
    cases hl : render prId 1 1 1 0 bvhM objM ⟨1, 1, 1⟩ (fun _ => []) with
    | nil => exact absurd hl hne
    | cons a t => simp [List.headD]
  exact claim_C5_pixel_bounds prId 1 1 1 0 bvhM objM ⟨1, 1, 1⟩ (fun _ => []) _ hmem

end Tracer
